import Mathlib

/-
Verification of scripts/update_menu.py (cafe menu updater) against its
natural-language specification.

The script is dynamically typed Python operating on JSON-shaped data
(the output of json.loads): dictionaries with string keys, lists,
strings, integers, booleans and None.  We embed such values as the
inductive type PyVal below and translate each function of the script
into a Lean function over PyVal / String, keeping the source's names.
Python dictionaries are embedded as insertion-ordered association
lists (CPython dicts preserve insertion order, which the script relies
on for its "natural iteration order" fallback and for serialization).
-/

/-- Values produced by json.loads and manipulated by the script:
JSON objects (string-keyed, insertion ordered), arrays, strings,
integers, booleans and null.  (The script's own logic never exercises
float values, so numbers are embedded as integers.) -/
inductive PyVal where
  | str (s : String)
  | int (n : Int)
  | bool (b : Bool)
  | none
  | list (xs : List PyVal)
  | dict (fields : List (String × PyVal))

/-- Association-list embedding of a Python dict with string keys. -/
abbrev PyDict := List (String × PyVal)

/-- Python truthiness (`bool(v)`) on JSON-shaped values: empty strings,
zero, False, None, empty lists and empty dicts are falsy. -/
def truthy : PyVal → Bool
  | .str s => s != ""
  | .int n => n != 0
  | .bool b => b
  | .none => false
  | .list xs => !xs.isEmpty
  | .dict fs => !fs.isEmpty

/-- Python `a or b` on values (returns `a` when truthy, else `b`). -/
def pyOr (a b : PyVal) : PyVal := if truthy a then a else b

/-- Test for `isinstance(v, dict)`. -/
def PyVal.isDict : PyVal → Bool
  | .dict _ => true
  | _ => false

/-- Test for `isinstance(v, str)`. -/
def PyVal.isStr : PyVal → Bool
  | .str _ => true
  | _ => false

/-- Python `d.get(k)` on a dict: the first binding of `k`, or None. -/
def pyGet (fs : PyDict) (k : String) : PyVal :=
  match fs with
  | [] => .none
  | (k', v) :: t => if k' == k then v else pyGet t k

/-- Python `d.get(k, default)` where the default is a dict value. -/
def pyGetD (fs : PyDict) (k : String) (d : PyVal) : PyVal :=
  match fs with
  | [] => d
  | (k', v) :: t => if k' == k then v else pyGetD t k d

/-- Python `k in d` membership test on a dict. -/
def hasKey (fs : PyDict) (k : String) : Bool :=
  match fs with
  | [] => false
  | (k', _) :: t => k' == k || hasKey t k

/-- Python `d[k] = v`: replace the value at an existing key in place
(keeping its position), else append the new binding at the end —
CPython's insertion-order semantics. -/
def dictSet (fs : PyDict) (k : String) (v : PyVal) : PyDict :=
  match fs with
  | [] => [(k, v)]
  | (k', w) :: t => if k' == k then (k', v) :: t else (k', w) :: dictSet t k v

/-- Python `d.setdefault(k, default)`: the stored value and the
(possibly extended) dict. -/
def dictSetdefault (fs : PyDict) (k : String) (d : PyVal) : PyVal × PyDict :=
  match fs with
  | [] => (d, [(k, d)])
  | (k', v) :: t =>
    if k' == k then (v, (k', v) :: t)
    else
      let r := dictSetdefault t k d
      (r.1, (k', v) :: r.2)

/-
Character-level string utilities modelling the Python builtins used
by the script: `in` (substring containment), str.replace, str.strip,
str.lower, and the regular expression substitution in slugify.
-/

/-- Boolean test that `p` is a leading segment of `s`. -/
def leadsList (p s : List Char) : Bool :=
  match p, s with
  | [], _ => true
  | _ :: _, [] => false
  | a :: p', b :: s' => a == b && leadsList p' s'

/-- Boolean test that the character sequence `p` occurs contiguously
inside `s` — Python's `p in s` on strings. -/
def containsSeq (p s : List Char) : Bool :=
  leadsList p s ||
    match s with
    | [] => false
    | _ :: t => containsSeq p t

/-- Python `needle in haystack` on strings. -/
def pyInStr (needle haystack : String) : Bool :=
  containsSeq needle.data haystack.data

/-- Fueled worker for replaceAll, structurally recursive so that it
evaluates inside the kernel.  When the pattern is nonempty, every step
consumes at least one character of `s`, so fuel `s.length` never runs
out (the fuel-exhausted branch returns the rest unprocessed and is
unreachable from replaceAll, see replaceAllFuel_congr). -/
def replaceAllFuel : Nat → List Char → List Char → List Char → List Char
  | 0, _, _, s => s
  | fuel + 1, p, r, s =>
    match s with
    | [] => []
    | c :: t =>
      if p ≠ [] ∧ leadsList p (c :: t) then
        r ++ replaceAllFuel fuel p r ((c :: t).drop p.length)
      else
        c :: replaceAllFuel fuel p r t

/-- Python `s.replace(p, r)` for a nonempty pattern `p`, on character
lists: scan left to right, replacing each (leftmost, non-overlapping)
occurrence of `p` by `r`.  (The script only ever calls str.replace
with nonempty literal patterns, so the empty-pattern corner of
CPython's semantics is irrelevant here.) -/
def replaceAll (p r s : List Char) : List Char :=
  replaceAllFuel s.length p r s

/-- Characters stripped by Python's argumentless str.strip: the ASCII
whitespace characters together with the Unicode space characters that
str.isspace recognises. -/
def isPySpace (c : Char) : Bool :=
  c == ' ' || c == '\t' || c == '\n' || c == '\r' || c == '\x0b' || c == '\x0c' ||
  c == '\x1c' || c == '\x1d' || c == '\x1e' || c == '\x1f' || c == '\x85' ||
  c == '\u00A0' || c == '\u1680' || ('\u2000' ≤ c && c ≤ '\u200A') ||
  c == '\u2028' || c == '\u2029' || c == '\u202F' || c == '\u205F' || c == '\u3000'

/-- Python `s.strip()` on character lists: drop leading and trailing
whitespace. -/
def pyStripChars (l : List Char) : List Char :=
  ((l.dropWhile isPySpace).reverse.dropWhile isPySpace).reverse

/-- Python `s.strip()` on strings. -/
def pyStrip (s : String) : String := ⟨pyStripChars s.data⟩

/-- Python `s.lower()` restricted to ASCII letters (all the strings the
script lowercases — category names, weekday names, error texts — are
ASCII, where CPython's str.lower agrees with this map). -/
def pyLowerChar (c : Char) : Char :=
  if 65 ≤ c.toNat ∧ c.toNat ≤ 90 then Char.ofNat (c.toNat + 32) else c

/-- Python `s.lower()` on strings (ASCII model, see pyLowerChar). -/
def pyLower (s : String) : String := ⟨s.data.map pyLowerChar⟩

/-
Embedding of Python's str()/repr() on JSON-shaped values, needed
because the script calls str() on values of unknown shape
(`str(name)`, `str(part)`, `str(value or "")`).  repr's escaping is
modelled for the characters CPython always escapes in string literals
(backslash, the chosen quote, tab, newline, carriage return); other
non-printable characters never occur in this development.
-/

/-- Escape one character for Python string repr with quote `q`. -/
def pyReprEscChar (q c : Char) : List Char :=
  if c == '\\' then ['\\', '\\']
  else if c == q then ['\\', q]
  else if c == '\t' then ['\\', 't']
  else if c == '\n' then ['\\', 'n']
  else if c == '\r' then ['\\', 'r']
  else [c]

/-- Python `repr` of a string: single-quoted, unless the string holds a
single quote and no double quote, in which case double-quoted. -/
def pyReprStr (s : String) : String :=
  let q : Char :=
    if containsSeq ['\''] s.data && !containsSeq ['"'] s.data then '"' else '\''
  ⟨q :: (s.data.flatMap (pyReprEscChar q)) ++ [q]⟩

mutual

/-- Python `repr` on JSON-shaped values. -/
def pyRepr : PyVal → String
  | .str s => pyReprStr s
  | .int n => toString n
  | .bool b => if b then "True" else "False"
  | .none => "None"
  | .list xs => "[" ++ pyReprSeq xs ++ "]"
  | .dict fs => "\x7b" ++ pyReprFields fs ++ "\x7d"

/-- Comma-joined reprs of list elements. -/
def pyReprSeq : List PyVal → String
  | [] => ""
  | [x] => pyRepr x
  | x :: y :: t => pyRepr x ++ ", " ++ pyReprSeq (y :: t)

/-- Comma-joined "key: value" reprs of dict fields. -/
def pyReprFields : List (String × PyVal) → String
  | [] => ""
  | [(k, v)] => pyReprStr k ++ ": " ++ pyRepr v
  | (k, v) :: f :: t => pyReprStr k ++ ": " ++ pyRepr v ++ ", " ++ pyReprFields (f :: t)

end

/-- Python `str()` on JSON-shaped values: the identity on strings,
`repr` on everything else (ints, booleans, None, lists, dicts). -/
def pyStr : PyVal → String
  | .str s => s
  | v => pyRepr v

/-
Constants of scripts/update_menu.py.
-/

/-- REQUIRED_DAYS from the script: the five weekday keys. -/
def REQUIRED_DAYS : List String := ["Monday", "Tuesday", "Wednesday", "Thursday", "Friday"]

/-- CATEGORY_PRIORITY from the script: highlight priority order. -/
def CATEGORY_PRIORITY : List String := ["Carving", "Plant Power", "Action"]

/-- IMAGE_GEN_MAX_RETRIES from the script. -/
def IMAGE_GEN_MAX_RETRIES : Nat := 4

/-
slugify, normalize_price and the credential getters.
-/

/-- ASCII letters and digits — the character class `[a-zA-Z0-9]` of the
regular expression in slugify. -/
def isAsciiAlnum (c : Char) : Bool :=
  (65 ≤ c.toNat && c.toNat ≤ 90) || (97 ≤ c.toNat && c.toNat ≤ 122) ||
    (48 ≤ c.toNat && c.toNat ≤ 57)

/-- Worker for collapseNonAlnum; the flag records whether the scan is
inside a run of non-alphanumeric characters whose hyphen has already
been emitted. -/
def collapseGo : Bool → List Char → List Char
  | _, [] => []
  | inRun, c :: t =>
    if isAsciiAlnum c then c :: collapseGo false t
    else if inRun then collapseGo true t
    else '-' :: collapseGo true t

/-- Model of `re.sub(r"[^a-zA-Z0-9]+", "-", s)`: each maximal run of
non-alphanumeric characters becomes a single hyphen. -/
def collapseNonAlnum (l : List Char) : List Char :=
  collapseGo false l

/-- Python `s.strip(ch)` for a single strip character: drop that
character from both ends. -/
def stripCharEnds (ch : Char) (l : List Char) : List Char :=
  ((l.dropWhile (· == ch)).reverse.dropWhile (· == ch)).reverse

/-- slugify from the script:
`re.sub(r"[^a-zA-Z0-9]+", "-", str(value or "").strip().lower()).strip("-")`,
with the literal "item" when the result is empty.  (The script only
calls slugify on strings — weekday names and category keys — so the
parameter is a String and `str(value or "")` is the identity there.) -/
def slugify (value : String) : String :=
  let s0 := if value == "" then "" else value
  let normalized := stripCharEnds '-' (collapseNonAlnum (pyLower (pyStrip s0)).data)
  if normalized.isEmpty then "item" else ⟨normalized⟩

/-- normalize_price from the script:
`str(value or "").replace("–", "-").replace(<mojibake>, "-").strip()`
where `<mojibake>` is the three-character sequence U+00E2 U+20AC U+201C
(a UTF-8 en dash mis-decoded as cp1252) appearing literally in the
source.  The parameter is a PyVal because validate_menu_json passes it
whatever sits under the "price"/"cost" keys. -/
def normalize_price (value : PyVal) : String :=
  ⟨pyStripChars (replaceAll ['â', '€', '“'] ['-']
      (replaceAll ['–'] ['-'] (pyStr (pyOr value (.str ""))).data))⟩

/-- Python `opt or <alt>` for an optional environment variable: the
value when set and nonempty, else the alternative. -/
def pyOrEnv (o : Option String) (alt : String) : String :=
  match o with
  | some s => if s != "" then s else alt
  | Option.none => alt

/-- get_image_generation_api_key from the script:
`os.environ.get("GEMINI_IMAGE_API_KEY") or os.environ.get("GEMINI_API_KEY") or ""`,
with the two environment variables passed explicitly (None = unset). -/
def get_image_generation_api_key (envImageKey envSharedKey : Option String) : String :=
  pyOrEnv envImageKey (pyOrEnv envSharedKey "")

/-
validate_menu_json and its inner coercion function.
-/

/-- coerce_menu_item, the inner function of validate_menu_json: coerce
one category entry to a canonical MenuItem dict, or None (signalling
that the entry is dropped). -/
def coerce_menu_item : PyVal → Option PyVal
  | .dict item =>
    let name := pyOr (pyGet item "name")
      (pyOr (pyGet item "title") (pyOr (pyGet item "item") (pyGet item "dish")))
    if !truthy name then Option.none
    else some (.dict [
      ("name", .str (pyStrip (pyStr name))),
      ("description", .str (pyStrip (pyStr
        (pyOr (pyGet item "description") (pyOr (pyGet item "details") (.str "")))))),
      ("price", .str (normalize_price
        (pyOr (pyGet item "price") (pyOr (pyGet item "cost") (.str "Market Price")))))])
  | .str s =>
    let text := pyStrip s
    if text == "" then Option.none
    else some (.dict [("name", .str text), ("description", .str ""),
      ("price", .str "Market Price")])
  | .list xs =>
    let parts := xs.filterMap (fun part =>
      let t := pyStrip (pyStr part)
      if t == "" then Option.none else some t)
    if parts.isEmpty then Option.none
    else some (.dict [("name", .str (String.intercalate ", " parts)),
      ("description", .str ""), ("price", .str "Market Price")])
  | _ => Option.none

/-- Inner loop of validate_menu_json over one day's categories: build
the normalized day menu, dropping entries whose coercion fails (each
drop only prints a warning). -/
def normalizeDayMenu : PyDict → PyDict
  | [] => []
  | (category, item) :: t =>
    match coerce_menu_item item with
    | some ni => (category, ni) :: normalizeDayMenu t
    | Option.none => normalizeDayMenu t

/-- Loop of validate_menu_json over REQUIRED_DAYS: a missing day is
skipped with a warning; a present day that is not a dict raises
ValueError (modelled as Except.error); a present dict day is replaced
by its normalized form. -/
def validateDays : List String → PyDict → Except String PyDict
  | [], menu => .ok menu
  | day :: rest, menu =>
    if !hasKey menu day then validateDays rest menu
    else
      match pyGet menu day with
      | .dict dm => validateDays rest (dictSet menu day (.dict (normalizeDayMenu dm)))
      | _ => .error ("Invalid menu structure for " ++ day)

/-- validate_menu_json from the script (top level of the Python dict;
an error models the ValueError it raises). -/
def validate_menu_json (menu : PyDict) : Except String PyDict :=
  validateDays REQUIRED_DAYS menu

/-
find_category_entry and select_daily_highlight.
-/

/-- Loop of find_category_entry: first binding whose key matches the
(already lowercased) target case-insensitively and whose value is a
dict; a miss returns the pair (None, None). -/
def findCategoryLoop : PyDict → String → Option String × Option PyVal
  | [], _ => (Option.none, Option.none)
  | (category, item) :: t, target =>
    if pyLower category == target && item.isDict then (some category, some item)
    else findCategoryLoop t target

/-- find_category_entry from the script. -/
def find_category_entry (day_menu : PyDict) (target_category : String) :
    Option String × Option PyVal :=
  findCategoryLoop day_menu (pyLower target_category)

/-- Python truthiness of the matched-category slot (None and "" are
falsy). -/
def optStrTruthy : Option String → Bool
  | Option.none => false
  | some s => s != ""

/-- Python truthiness of the matched-item slot (None and empty
containers are falsy). -/
def optValTruthy : Option PyVal → Bool
  | Option.none => false
  | some v => truthy v

/-- Fallback of select_daily_highlight:
`next(((c, i) for c, i in day_menu.items() if isinstance(i, dict)), (None, None))`. -/
def fallbackFirstDict : PyDict → Option String × Option PyVal
  | [] => (Option.none, Option.none)
  | (c, i) :: t => if i.isDict then (some c, some i) else fallbackFirstDict t

/-- Priority loop of select_daily_highlight: take the first priority
category whose find_category_entry result passes the Python truthiness
test `if matched_category and item`, else fall back. -/
def selectLoop : List String → PyDict → Option String × Option PyVal
  | [], day_menu => fallbackFirstDict day_menu
  | category :: rest, day_menu =>
    let r := find_category_entry day_menu category
    if optStrTruthy r.1 && optValTruthy r.2 then r else selectLoop rest day_menu

/-- select_daily_highlight from the script. -/
def select_daily_highlight (day_menu : PyDict) : Option String × Option PyVal :=
  selectLoop CATEGORY_PRIORITY day_menu

/-
generate_food_photo_image: the bounded retry/backoff loop.  The
external image service is abstracted as an oracle giving, per attempt
number, either an exception text or the bytes that
extract_generated_image_bytes recovers from the response (possibly
none — the script then raises "Image model returned no image bytes"
inside the same try block).  Sleeps are recorded instead of performed.
-/

/-- Retryability test of the except-branch:
`"429" in err_text or "RESOURCE_EXHAUSTED" in err_text or "rate" in err_text.lower()`. -/
def retryableError (err_text : String) : Bool :=
  pyInStr "429" err_text || pyInStr "RESOURCE_EXHAUSTED" err_text ||
    pyInStr "rate" (pyLower err_text)

/-- Outcome of one try-block body: service errors pass through, and a
response with no recoverable image bytes becomes the RuntimeError the
script raises (and immediately catches). -/
def attemptOnce (resp : Except String (List Nat)) : Except String (List Nat) :=
  match resp with
  | .ok bytes => if bytes.isEmpty then .error "Image model returned no image bytes" else .ok bytes
  | .error e => .error e

/-- Result of generate_food_photo_image: the written bytes or the
raised exception text, how many attempts ran, and the performed
sleeps in order. -/
structure GenOutcome where
  result : Except String (List Nat)
  attemptsMade : Nat
  sleeps : List Nat

/-- Retry loop of generate_food_photo_image
(`for attempt in range(1, IMAGE_GEN_MAX_RETRIES + 1)` with
`delay = 8` and `delay *= 2` after each sleep): a successful attempt
writes and returns; a failed attempt breaks (and the function raises
`"Image generation failed: ..."`) when attempts are exhausted or the
error is not retryable, else sleeps and doubles the delay.  The first
argument is structural fuel; with fuel IMAGE_GEN_MAX_RETRIES starting
at attempt 1 the fuel-exhausted branch is unreachable, because the
guard breaks at attempt IMAGE_GEN_MAX_RETRIES at the latest. -/
def genAttemptLoop (oracle : Nat → Except String (List Nat)) :
    Nat → Nat → Nat → List Nat → GenOutcome
  | 0, attempt, _, sleepsRev =>
    ⟨.error "Image generation failed: None", attempt, sleepsRev.reverse⟩
  | fuel + 1, attempt, delay, sleepsRev =>
    match attemptOnce (oracle attempt) with
    | .ok bytes => ⟨.ok bytes, attempt, sleepsRev.reverse⟩
    | .error err =>
      if IMAGE_GEN_MAX_RETRIES ≤ attempt ∨ retryableError err = false then
        ⟨.error ("Image generation failed: " ++ err), attempt, sleepsRev.reverse⟩
      else
        genAttemptLoop oracle fuel (attempt + 1) (delay * 2) (delay :: sleepsRev)

/-- generate_food_photo_image from the script: raises at once when the
credential is empty, else runs the retry loop from attempt 1 with an
8-second starting delay.  (The photography prompt built from the item
feeds the black-box service call and does not influence control
flow.) -/
def generate_food_photo_image (image_api_key : String)
    (oracle : Nat → Except String (List Nat)) : GenOutcome :=
  if image_api_key == "" then
    ⟨.error "GEMINI_IMAGE_API_KEY (or GEMINI_API_KEY) environment variable not set", 0, []⟩
  else
    genAttemptLoop oracle IMAGE_GEN_MAX_RETRIES 1 8 []

/-
generate_daily_highlights and generate_weekly_highlights.  File writes
are recorded as events (path plus whether the procedural fallback
produced the image); the per-path oracle supplies the external image
service's behaviour for each output path.
-/

/-- Record of one PNG written to the asset store. -/
structure WriteEvent where
  path : String
  viaFallback : Bool

/-- Loop body shared by the two generators: attempt external
generation, fall back to render_fallback_tray_image on any exception
(`except Exception`), so a write always happens. -/
def generateWithFallback (image_api_key : String)
    (oracle : String → Nat → Except String (List Nat)) (output_path : String) : WriteEvent :=
  match (generate_food_photo_image image_api_key (oracle output_path)).result with
  | .ok _ => ⟨output_path, false⟩
  | .error _ => ⟨output_path, true⟩

/-- Loop of generate_daily_highlights over the days to generate:
returns the updated menu (the selected item of each day gains an
"imageUrl" entry), the `generated` dict, and the write events. -/
def dailyLoop (days : List String) (menu : PyDict) (assetsRel week_key image_api_key : String)
    (oracle : String → Nat → Except String (List Nat)) : PyDict × PyDict × List WriteEvent :=
  match days with
  | [] => (menu, [], [])
  | day :: rest =>
    let skip := dailyLoop rest menu assetsRel week_key image_api_key oracle
    match pyGet menu day with
    | .dict day_menu =>
      if day_menu.isEmpty then skip
      else
        let r := select_daily_highlight day_menu
        match r.1, r.2 with
        | some category, some (.dict item) =>
          if category == "" then skip
          else
            let filename :=
              "daily-" ++ week_key ++ "-" ++ slugify day ++ "-" ++ slugify category ++ ".png"
            let output_path := assetsRel ++ "/" ++ filename
            let ev := generateWithFallback image_api_key oracle output_path
            let image_url := output_path
            let item' := dictSet item "imageUrl" (.str image_url)
            let menu' := dictSet menu day (.dict (dictSet day_menu category (.dict item')))
            let rec' := dailyLoop rest menu' assetsRel week_key image_api_key oracle
            (rec'.1,
             (day, .dict [("category", .str category), ("imageUrl", .str image_url)]) :: rec'.2.1,
             ev :: rec'.2.2)
        | _, _ => skip
    | _ => skip

/-- generate_daily_highlights from the script, with
`target_days = set(REQUIRED_DAYS)` (no --today-only), so
`days_to_generate` is all of REQUIRED_DAYS.  Asset paths are strings
relative to the project root, `assetsRel` being the assets directory
(so to_repo_relative_url is the identity on the built path). -/
def generate_daily_highlights (menu : PyDict) (assetsRel week_key image_api_key : String)
    (oracle : String → Nat → Except String (List Nat)) : PyDict × PyDict × List WriteEvent :=
  dailyLoop REQUIRED_DAYS menu assetsRel week_key image_api_key oracle

/-- Day scan of generate_weekly_highlights for one category: the first
day whose menu is a dict and holds a case-insensitive match with a
dict item supplies the representative (the scan breaks there, even
when that dict is empty). -/
def weeklyRepLoop (days : List String) (menu : PyDict) (category : String) : Option PyVal :=
  match days with
  | [] => Option.none
  | day :: rest =>
    match pyGet menu day with
    | .dict dm =>
      match (find_category_entry dm category).2 with
      | some item => some item
      | Option.none => weeklyRepLoop rest menu category
    | _ => weeklyRepLoop rest menu category

/-- Loop of generate_weekly_highlights over the priority categories:
`if not representative_item: continue` skips a category whose scan
found nothing or whose representative is Python-falsy. -/
def weeklyLoop (cats : List String) (menu : PyDict) (assetsRel week_key image_api_key : String)
    (oracle : String → Nat → Except String (List Nat)) : PyDict × List WriteEvent :=
  match cats with
  | [] => ([], [])
  | category :: rest =>
    let r := weeklyLoop rest menu assetsRel week_key image_api_key oracle
    match weeklyRepLoop REQUIRED_DAYS menu category with
    | some item =>
      if truthy item then
        let filename := "weekly-" ++ week_key ++ "-" ++ slugify category ++ ".png"
        let output_path := assetsRel ++ "/" ++ filename
        let ev := generateWithFallback image_api_key oracle output_path
        ((category, .str output_path) :: r.1, ev :: r.2)
      else r
    | Option.none => r

/-- generate_weekly_highlights from the script (asset paths as in
generate_daily_highlights). -/
def generate_weekly_highlights (menu : PyDict) (assetsRel week_key image_api_key : String)
    (oracle : String → Nat → Except String (List Nat)) : PyDict × List WriteEvent :=
  weeklyLoop CATEGORY_PRIORITY menu assetsRel week_key image_api_key oracle

/-
json.loads failure and the main() error handling.  The script parses
the extractor's raw text with json.loads; on failure CPython raises
json.JSONDecodeError, whose str() is
"<msg>: line <lineno> column <colno> (char <pos>)" with
lineno = doc.count('\n', 0, pos) + 1 and
colno = pos - doc.rfind('\n', 0, pos)  (colno = pos + 1 when no
newline precedes pos).
-/

/-- CPython json.JSONDecodeError: the short parser message, the
offending document text, and the character position of the failure. -/
structure JsonDecodeError where
  msg : String
  doc : String
  pos : Nat

/-- Index of the last newline strictly before `pos`, if any
(`doc.rfind('\n', 0, pos)` in CPython). -/
def rfindNewline (doc : List Char) (pos : Nat) : Option Nat :=
  (((List.range pos).filter (fun i => doc.get? i == some '\n'))).getLast?

/-- CPython's str() of a json.JSONDecodeError. -/
def jsonDecodeErrorStr (e : JsonDecodeError) : String :=
  let lineno := ((e.doc.data.take e.pos).filter (fun c => c == '\n')).length + 1
  let colno :=
    match rfindNewline e.doc.data e.pos with
    | some i => e.pos - i
    | Option.none => e.pos + 1
  e.msg ++ ": line " ++ toString lineno ++ " column " ++ toString colno ++
    " (char " ++ toString e.pos ++ ")"

/-- Errors that reach the three except-clauses at the bottom of
main(): requests.RequestException, json.JSONDecodeError, and every
other exception. -/
inductive MainError where
  | requestError (msg : String)
  | jsonDecodeError (e : JsonDecodeError)
  | genericError (msg : String)

/-- Exit code of main(): 0 from the successful return, 1 from every
except-clause. -/
def mainExitCode {α : Type} (r : Except MainError α) : Nat :=
  match r with
  | .ok _ => 0
  | .error _ => 1

/-- Diagnostic main() prints to stderr for each caught exception. -/
def mainDiagnostic : MainError → String
  | .requestError m => "Error fetching menu image: " ++ m
  | .jsonDecodeError e => "Error parsing menu JSON: " ++ jsonDecodeErrorStr e
  | .genericError m => "Error: " ++ m

/-- Python type names, for the messages of AttributeError/TypeError
raised when `_generated` holds a non-dict. -/
def pyTypeName : PyVal → String
  | .str _ => "str"
  | .int _ => "int"
  | .bool _ => "bool"
  | .none => "NoneType"
  | .list _ => "list"
  | .dict _ => "dict"

/-- Python `v.get(k, default)` on a value of unknown type: raises
AttributeError unless `v` is a dict. -/
def pyGetAttr (v : PyVal) (k : String) (d : PyVal) : Except String PyVal :=
  match v with
  | .dict fs => .ok (pyGetD fs k d)
  | _ => .error ("'" ++ pyTypeName v ++ "' object has no attribute 'get'")

/-- Tail of main(): `metadata = menu_data.setdefault("_generated", {})`
followed by the four metadata assignments and the write-back.  Item
assignment on a non-dict `_generated` raises (generic except clause). -/
def mainFinalize (menu : PyDict) (daily weekly : PyVal) (nowIso : String) :
    Except String PyDict :=
  let r := dictSetdefault menu "_generated" (.dict [])
  match r.1 with
  | .dict g =>
    let g1 := dictSet g "updatedAt" (.str nowIso)
    let g2 := dictSet g1 "priorityOrder" (.list (CATEGORY_PRIORITY.map PyVal.str))
    let g3 := dictSet g2 "dailyHighlights" daily
    let g4 := dictSet g3 "weeklyHighlights" weekly
    .ok (dictSet r.2 "_generated" (.dict g4))
  | v => .error ("'" ++ pyTypeName v ++ "' object does not support item assignment")

/-- Warning main() prints when the image credential resolves empty. -/
def missingImageKeyWarning : String :=
  "Warning: GEMINI_IMAGE_API_KEY not set; using fallback local tray images."

/-- Result of a successful run of main() from a loaded document. -/
structure RunResult where
  doc : PyDict
  daily : PyVal
  weekly : PyVal
  writes : List WriteEvent
  warnings : List String

/-- Body of main() from the point where the menu document dict is in
hand (the --no-fetch path after load_existing_menu, or the fetch path
after json.loads), for runs without --today-only: validate, then
either reuse recorded highlight metadata (--skip-images) or generate
daily and weekly highlights, then finalize the metadata.  Any raised
exception propagates to the generic except-clause of main(). -/
def mainFromDoc (doc : PyDict) (skip_images : Bool)
    (assetsRel week_key : String) (envImageKey envSharedKey : Option String)
    (nowIso : String) (oracle : String → Nat → Except String (List Nat)) :
    Except String RunResult :=
  let image_api_key := get_image_generation_api_key envImageKey envSharedKey
  let warnings := if image_api_key == "" then [missingImageKeyWarning] else []
  match validate_menu_json doc with
  | .error e => .error e
  | .ok menu =>
    if skip_images then
      match pyGetAttr (pyGetD menu "_generated" (.dict [])) "dailyHighlights" (.dict []) with
      | .error e => .error e
      | .ok daily =>
        match pyGetAttr (pyGetD menu "_generated" (.dict [])) "weeklyHighlights" (.dict []) with
        | .error e => .error e
        | .ok weekly =>
          match mainFinalize menu daily weekly nowIso with
          | .error e => .error e
          | .ok final => .ok ⟨final, daily, weekly, [], warnings⟩
    else
      let d := generate_daily_highlights menu assetsRel week_key image_api_key oracle
      let w := generate_weekly_highlights d.1 assetsRel week_key image_api_key oracle
      match mainFinalize d.1 (.dict d.2.1) (.dict w.1) nowIso with
      | .error e => .error e
      | .ok final => .ok ⟨final, .dict d.2.1, .dict w.1, d.2.2 ++ w.2, warnings⟩

/-- main() on the fetch path up to and including json.loads: a
transport error maps to the requests except-clause, a parse failure to
the json.JSONDecodeError except-clause, and a successful parse hands
the document to the rest of the body (whose exceptions map to the
generic clause).  A parsed non-dict value makes the later
`menu_data.get("_generated", {})` raise AttributeError. -/
def mainRun (fetchResult : Except String Unit)
    (parseResult : Except JsonDecodeError PyVal) (skip_images : Bool)
    (assetsRel week_key : String) (envImageKey envSharedKey : Option String)
    (nowIso : String) (oracle : String → Nat → Except String (List Nat)) :
    Except MainError RunResult :=
  match fetchResult with
  | .error m => .error (.requestError m)
  | .ok _ =>
    match parseResult with
    | .error e => .error (.jsonDecodeError e)
    | .ok (.dict doc) =>
      match mainFromDoc doc skip_images assetsRel week_key envImageKey envSharedKey nowIso oracle with
      | .error m => .error (.genericError m)
      | .ok r => .ok r
    | .ok v => .error (.genericError ("'" ++ pyTypeName v ++ "' object has no attribute 'get'"))

/-
write_menu: `json.dump(menu_data, fh, indent=2, ensure_ascii=False)`
followed by a newline.  Model of CPython's json serialization with
these options: 2-space indent, ", "-free item separators (with indent
the separators are "," + newline + indent and ": "), non-ASCII
characters written as themselves, control characters escaped.
-/

/-- Lowercase hex digit. -/
def hexDigit (n : Nat) : Char :=
  if n < 10 then Char.ofNat (48 + n) else Char.ofNat (87 + n)

/-- JSON string escaping with ensure_ascii=False: quote, backslash and
control characters are escaped, everything else is kept. -/
def jsonEscapeChar (c : Char) : List Char :=
  if c == '"' then ['\\', '"']
  else if c == '\\' then ['\\', '\\']
  else if c == '\n' then ['\\', 'n']
  else if c == '\t' then ['\\', 't']
  else if c == '\r' then ['\\', 'r']
  else if c == '\x08' then ['\\', 'b']
  else if c == '\x0c' then ['\\', 'f']
  else if c.toNat < 32 then
    ['\\', 'u', '0', '0', hexDigit (c.toNat / 16), hexDigit (c.toNat % 16)]
  else [c]

/-- JSON string literal. -/
def jsonQuote (s : String) : String :=
  ⟨'"' :: s.data.flatMap jsonEscapeChar ++ ['"']⟩

/-- Newline followed by `n` spaces of indent. -/
def jsonNewlineIndent (n : Nat) : String :=
  ⟨'\n' :: List.replicate n ' '⟩

mutual

/-- CPython json.dump with indent=2 and ensure_ascii=False, at indent
level `ind` (in spaces). -/
def jsonDumpVal (ind : Nat) : PyVal → String
  | .str s => jsonQuote s
  | .int n => toString n
  | .bool b => if b then "true" else "false"
  | .none => "null"
  | .list [] => "[]"
  | .list (x :: xs) =>
    "[" ++ jsonNewlineIndent (ind + 2) ++ jsonDumpSeq (ind + 2) (x :: xs) ++
      jsonNewlineIndent ind ++ "]"
  | .dict [] => "\x7b\x7d"
  | .dict (f :: fs) =>
    "\x7b" ++ jsonNewlineIndent (ind + 2) ++ jsonDumpFields (ind + 2) (f :: fs) ++
      jsonNewlineIndent ind ++ "\x7d"

/-- Comma-and-newline separated array elements. -/
def jsonDumpSeq (ind : Nat) : List PyVal → String
  | [] => ""
  | [x] => jsonDumpVal ind x
  | x :: y :: t => jsonDumpVal ind x ++ "," ++ jsonNewlineIndent ind ++ jsonDumpSeq ind (y :: t)

/-- Comma-and-newline separated object members. -/
def jsonDumpFields (ind : Nat) : List (String × PyVal) → String
  | [] => ""
  | [(k, v)] => jsonQuote k ++ ": " ++ jsonDumpVal ind v
  | (k, v) :: g :: t =>
    jsonQuote k ++ ": " ++ jsonDumpVal ind v ++ "," ++ jsonNewlineIndent ind ++
      jsonDumpFields ind (g :: t)

end

/-- Bytes write_menu puts in the menu file: the serialized document
plus a trailing newline. -/
def write_menu_content (doc : PyDict) : String :=
  jsonDumpVal 0 (.dict doc) ++ "\n"

/-
Specification-side definitions.  The defs below transcribe the
claims' own wording (amended only where a counterexample forces it)
and are compared with the source-translated functions above by the
claim theorems.
-/

/-- The canonical MenuItem record of the specification. -/
def specMenuItem (name description price : String) : PyVal :=
  .dict [("name", .str name), ("description", .str description), ("price", .str price)]

/-- First value among the given candidate keys that is present and
non-empty (Python-truthy), first-match-wins — the specification's
"explicit ordered list of candidate keys". -/
def firstTruthyField (item : PyDict) (keys : List String) : Option PyVal :=
  keys.findSome? (fun k =>
    let v := pyGet item k
    if truthy v then some v else Option.none)

/-- Claim C1's coercion, as amended: a mapping resolves name from
{name, title, item, dish}, description from {description, details}
(default empty), price from {price, cost} (default "Market Price",
normalized); the resolved name is stripped, which can leave it empty
when it was whitespace-only; a plain string is stripped and becomes
the name when non-empty after stripping; a list contributes its
non-empty stripped elements joined with ", "; other shapes, a mapping
with no truthy name candidate, a whitespace-only string and a list
with no contributing element are dropped. -/
def specCoerceItem : PyVal → Option PyVal
  | .dict item =>
    match firstTruthyField item ["name", "title", "item", "dish"] with
    | Option.none => Option.none
    | some nv =>
      let desc :=
        match firstTruthyField item ["description", "details"] with
        | some dv => pyStrip (pyStr dv)
        | Option.none => ""
      let price :=
        match firstTruthyField item ["price", "cost"] with
        | some pv => normalize_price pv
        | Option.none => "Market Price"
      some (specMenuItem (pyStrip (pyStr nv)) desc price)
  | .str s =>
    if pyStrip s == "" then Option.none
    else some (specMenuItem (pyStrip s) "" "Market Price")
  | .list xs =>
    let parts := (xs.map (fun p => pyStrip (pyStr p))).filter (fun t => t != "")
    if parts == ([] : List String) then Option.none
    else some (specMenuItem (String.intercalate ", " parts) "" "Market Price")
  | _ => Option.none

/-- First entry of a day menu whose key matches the category
case-insensitively and whose value is mapping-shaped. -/
def specFirstDictMatch (dm : PyDict) (cat : String) : Option (String × PyVal) :=
  dm.find? (fun ci => pyLower ci.1 == pyLower cat && ci.2.isDict)

/-- Claim C2's daily selection, as amended: the first priority
category whose first case-insensitive mapping-shaped match is a
non-empty mapping wins; otherwise the first mapping-shaped entry in
the day's natural iteration order (possibly an empty mapping);
otherwise no highlight. -/
def specSelectDaily (dm : PyDict) : Option String × Option PyVal :=
  match CATEGORY_PRIORITY.findSome? (fun cat =>
      match specFirstDictMatch dm cat with
      | some (c, .dict fs) => if fs.isEmpty then Option.none else some (c, PyVal.dict fs)
      | _ => Option.none) with
  | some ci => (some ci.1, some ci.2)
  | Option.none =>
    match dm.find? (fun ci => ci.2.isDict) with
    | some ci => (some ci.1, some ci.2)
    | Option.none => (Option.none, Option.none)

/-- Claim C3's weekly representative: scan the weekdays
Monday→Friday in order and take the first case-insensitive
mapping-shaped match for the category found anywhere in the week. -/
def specWeeklyRep (menu : PyDict) (cat : String) : Option PyVal :=
  REQUIRED_DAYS.findSome? (fun day =>
    match pyGet menu day with
    | .dict dm => (specFirstDictMatch dm cat).map Prod.snd
    | _ => Option.none)

/-- Claim C9's slugification, exactly as worded: lowercase, replace
each run of non-alphanumeric characters with a single hyphen, trim
leading and trailing hyphens, and return "item" when empty (the
initial `.strip()` of the source does not appear here; the claim
theorem shows it makes no difference). -/
def specSlugify (value : String) : String :=
  let t := stripCharEnds '-' (collapseNonAlnum (pyLower value).data)
  if t.isEmpty then "item" else ⟨t⟩

/-
Helper definitions used by theorem statements and witnesses.
-/

/-- Chained dict lookup (each step requires a dict, like Python's
`d[k1][k2]...` read through `get`). -/
def pyGetPath (v : PyVal) : List String → PyVal
  | [] => v
  | k :: ks =>
    match v with
    | .dict fs => pyGetPath (pyGet fs k) ks
    | _ => .none

/-- First ~500 characters of a text — the truncated excerpt claim C5
says the parse diagnostic carries. -/
def first500 (s : String) : String := ⟨s.data.take 500⟩

/-- A menu item already in the exact shape validate_menu_json
produces: exactly the three fields name/description/price in order,
each a string, the name non-empty and stripped, the description
stripped, the price non-empty and fixed by normalize_price. -/
def isNormalizedMenuItemStrict : PyVal → Bool
  | .dict [("name", .str n), ("description", .str d), ("price", .str p)] =>
    n != "" && pyStrip n == n && pyStrip d == d && p != "" && normalize_price (.str p) == p
  | _ => false

/-- A day menu all of whose items are already normalized. -/
def isNormalizedDayMenu : PyVal → Bool
  | .dict dm => dm.all (fun ci => isNormalizedMenuItemStrict ci.2)
  | _ => false

/-- The exact `priorityOrder` value main() writes. -/
def isPriorityOrderVal : PyVal → Bool
  | .list [.str a, .str b, .str c] => a == "Carving" && b == "Plant Power" && c == "Action"
  | _ => false

/-- Well-formedness of an existing menu document under which claim C4
expects a byte-identical round trip: every present weekday already
normalized, and `_generated` a dict that already carries the four
metadata keys with the current priority order. -/
def wellFormedMenuDoc (doc : PyDict) : Bool :=
  REQUIRED_DAYS.all (fun day => !hasKey doc day || isNormalizedDayMenu (pyGet doc day)) &&
  hasKey doc "_generated" &&
  (match pyGet doc "_generated" with
   | .dict g =>
     hasKey g "updatedAt" && hasKey g "priorityOrder" &&
     hasKey g "dailyHighlights" && hasKey g "weeklyHighlights" &&
     isPriorityOrderVal (pyGet g "priorityOrder")
   | _ => false)

/-- The input document with only `_generated.updatedAt` replaced —
what claim C4 allows the output to differ by. -/
def setUpdatedAt (doc : PyDict) (nowIso : String) : PyDict :=
  match pyGet doc "_generated" with
  | .dict g => dictSet doc "_generated" (.dict (dictSet g "updatedAt" (.str nowIso)))
  | _ => doc

/-- main() on the --no-fetch path: load_existing_menu then the body;
a missing file's FileNotFoundError and the body's exceptions reach the
generic except-clause. -/
def mainNoFetch (loadResult : Except String PyDict) (skip_images : Bool)
    (assetsRel week_key : String) (envImageKey envSharedKey : Option String)
    (nowIso : String) (oracle : String → Nat → Except String (List Nat)) :
    Except MainError RunResult :=
  match loadResult with
  | .error m => .error (.genericError m)
  | .ok doc =>
    match mainFromDoc doc skip_images assetsRel week_key envImageKey envSharedKey
        nowIso oracle with
    | .error m => .error (.genericError m)
    | .ok r => .ok r

/-
Helper lemmas.
-/

/-- Lowercasing preserves length, so a case-insensitive match with a
nonempty category name is nonempty. -/
theorem pyLower_data_length (s : String) : (pyLower s).data.length = s.data.length := by
  simp [pyLower]

theorem ne_empty_of_pyLower_eq {c cat : String} (h : pyLower c = pyLower cat)
    (hcat : cat ≠ "") : c ≠ "" := by
  intro hc
  apply hcat
  have hlen : (pyLower c).data.length = (pyLower cat).data.length := by rw [h]
  rw [pyLower_data_length, pyLower_data_length] at hlen
  cases hdata : cat.data with
  | nil => exact String.ext (by simp [hdata])
  | cons a t =>
    subst hc
    simp [hdata] at hlen

/-- findCategoryLoop is List.find? with the case-insensitive
dict-valued predicate. -/
theorem findCategoryLoop_eq_find (dm : PyDict) (target : String) :
    findCategoryLoop dm target =
      match dm.find? (fun ci => pyLower ci.1 == target && ci.2.isDict) with
      | some ci => (some ci.1, some ci.2)
      | Option.none => (Option.none, Option.none) := by
  induction dm with
  | nil => rfl
  | cons hd tl ih =>
    obtain ⟨c, v⟩ := hd
    by_cases h : (pyLower c == target && v.isDict) = true
    · simp [findCategoryLoop, List.find?, h]
    · simp [findCategoryLoop, List.find?, h, ih]

/-- find_category_entry in terms of specFirstDictMatch. -/
theorem find_category_entry_eq_spec (dm : PyDict) (cat : String) :
    find_category_entry dm cat =
      match specFirstDictMatch dm cat with
      | some ci => (some ci.1, some ci.2)
      | Option.none => (Option.none, Option.none) := by
  rw [find_category_entry, findCategoryLoop_eq_find]
  rfl

/-- The fallback of select_daily_highlight is List.find? with the
dict-shaped predicate. -/
theorem fallbackFirstDict_eq_find (dm : PyDict) :
    fallbackFirstDict dm =
      match dm.find? (fun ci => ci.2.isDict) with
      | some ci => (some ci.1, some ci.2)
      | Option.none => (Option.none, Option.none) := by
  induction dm with
  | nil => rfl
  | cons hd tl ih =>
    obtain ⟨c, v⟩ := hd
    by_cases h : v.isDict = true
    · simp [fallbackFirstDict, List.find?, h]
    · simp [fallbackFirstDict, List.find?, h, ih]

/-- A find? hit satisfies its predicate (projection of
List.find?_some). -/
theorem specFirstDictMatch_prop {dm : PyDict} {cat : String} {c : String} {v : PyVal}
    (h : specFirstDictMatch dm cat = some (c, v)) :
    pyLower c = pyLower cat ∧ v.isDict = true := by
  have hp := List.find?_some h
  simp only [Bool.and_eq_true, beq_iff_eq] at hp
  exact hp

/-- The priority loop of select_daily_highlight agrees with the
specification-side scan, provided the scanned category names are
nonempty (as all CATEGORY_PRIORITY entries are). -/
theorem selectLoop_eq_spec (cats : List String) (dm : PyDict)
    (hne : ∀ cat ∈ cats, cat ≠ "") :
    selectLoop cats dm =
      match cats.findSome? (fun cat =>
          match specFirstDictMatch dm cat with
          | some (c, .dict fs) => if fs.isEmpty then Option.none else some (c, PyVal.dict fs)
          | _ => Option.none) with
      | some ci => (some ci.1, some ci.2)
      | Option.none => fallbackFirstDict dm := by
  induction cats with
  | nil => rfl
  | cons cat rest ih =>
    have hcat : cat ≠ "" := hne cat (List.mem_cons_self cat rest)
    have hrest : ∀ c ∈ rest, c ≠ "" := fun c hc => hne c (List.mem_cons_of_mem cat hc)
    rw [List.findSome?_cons]
    cases hfind : specFirstDictMatch dm cat with
    | none =>
      have : find_category_entry dm cat = (Option.none, Option.none) := by
        rw [find_category_entry_eq_spec, hfind]
      simp only [selectLoop, this, optStrTruthy, optValTruthy, Bool.and_self]
      simpa [hfind] using ih hrest
    | some ci =>
      obtain ⟨c, v⟩ := ci
      obtain ⟨hlow, hdict⟩ := specFirstDictMatch_prop hfind
      cases v with
      | dict fs =>
        have hfe : find_category_entry dm cat = (some c, some (PyVal.dict fs)) := by
          rw [find_category_entry_eq_spec, hfind]
        have hc : c ≠ "" := ne_empty_of_pyLower_eq hlow hcat
        by_cases hfs : fs.isEmpty = true
        · simp only [selectLoop, hfe, optStrTruthy, optValTruthy, truthy, hfs]
          simp only [Bool.not_true, Bool.and_false]
          simpa [hfind, hfs] using ih hrest
        · simp only [selectLoop, hfe, optStrTruthy, optValTruthy, truthy]
          simp [hfind, hfs, hc]
      | str s => simp [PyVal.isDict] at hdict
      | int n => simp [PyVal.isDict] at hdict
      | bool b => simp [PyVal.isDict] at hdict
      | none => simp [PyVal.isDict] at hdict
      | list xs => simp [PyVal.isDict] at hdict

/-- Claim C2 (amended): select_daily_highlight is exactly the
specification-side selection — the first priority category (in the
fixed order Carving, Plant Power, Action) whose first case-insensitive
mapping-shaped match is a non-empty mapping wins; otherwise the first
mapping-shaped entry in the day's natural iteration order; otherwise
(None, None).  Determinism and freedom from side effects are inherent:
the function is a pure function of the day menu, so repeated calls
yield equal results. -/
theorem claim_C2 (dm : PyDict) : select_daily_highlight dm = specSelectDaily dm := by
  rw [select_daily_highlight, selectLoop_eq_spec CATEGORY_PRIORITY dm (by decide)]
  rw [specSelectDaily, fallbackFirstDict_eq_find]

/-- Claim C2 as frozen is false: in the day menu
`{"Soup": {"name": "x"}, "Carving": {}}` the category "Carving" is
present with a mapping-shaped item, yet select_daily_highlight does
not prefer it — the empty mapping fails the loop's truthiness test and
the fallback then returns "Soup", the first mapping-shaped entry. -/
theorem claim_C2_counterexample :
    (select_daily_highlight
      [("Soup", .dict [("name", .str "x")]), ("Carving", .dict [])]).1 = some "Soup" ∧
    specFirstDictMatch
      [("Soup", .dict [("name", .str "x")]), ("Carving", .dict [])] "Carving" =
        some ("Carving", PyVal.dict []) ∧
    (some "Soup" : Option String) ≠ some "Carving" := by
  refine ⟨rfl, rfl, by decide⟩

/-- Projection of find_category_entry to its item slot. -/
theorem find_category_entry_snd (dm : PyDict) (cat : String) :
    (find_category_entry dm cat).2 = (specFirstDictMatch dm cat).map Prod.snd := by
  rw [find_category_entry_eq_spec]
  cases specFirstDictMatch dm cat <;> rfl

/-- The day scan of generate_weekly_highlights is the
specification-side weekly scan. -/
theorem weeklyRepLoop_eq_spec (days : List String) (menu : PyDict) (cat : String) :
    weeklyRepLoop days menu cat =
      days.findSome? (fun day =>
        match pyGet menu day with
        | .dict dm => (specFirstDictMatch dm cat).map Prod.snd
        | _ => Option.none) := by
  induction days with
  | nil => rfl
  | cons day rest ih =>
    rw [List.findSome?_cons]
    cases hv : pyGet menu day with
    | dict dm =>
      simp only [weeklyRepLoop, hv]
      rw [← find_category_entry_snd]
      cases hfe : (find_category_entry dm cat).2 with
      | none => simpa [hfe] using ih
      | some item => simp [hfe]
    | str s => simp only [weeklyRepLoop, hv]; simpa using ih
    | int n => simp only [weeklyRepLoop, hv]; simpa using ih
    | bool b => simp only [weeklyRepLoop, hv]; simpa using ih
    | none => simp only [weeklyRepLoop, hv]; simpa using ih
    | list xs => simp only [weeklyRepLoop, hv]; simpa using ih

/-- The weekly mapping entry generate_weekly_highlights would build
for one category, per the amended claim: the first match of the
Monday→Friday scan represents the category unless it is Python-falsy
(an empty mapping), in which case — like a category with no match at
all — the category is left out. -/
def specWeeklyEntry (menu : PyDict) (assetsRel week_key cat : String) :
    Option (String × PyVal) :=
  match specWeeklyRep menu cat with
  | some item =>
    if truthy item then
      some (cat, PyVal.str (assetsRel ++ "/" ++ ("weekly-" ++ week_key ++ "-" ++ slugify cat ++ ".png")))
    else Option.none
  | Option.none => Option.none

/-- weeklyLoop builds exactly the filterMap of specWeeklyEntry. -/
theorem weeklyLoop_eq_spec (cats : List String) (menu : PyDict)
    (assetsRel week_key key : String) (oracle : String → Nat → Except String (List Nat)) :
    (weeklyLoop cats menu assetsRel week_key key oracle).1 =
      cats.filterMap (specWeeklyEntry menu assetsRel week_key) := by
  induction cats with
  | nil => rfl
  | cons cat rest ih =>
    rw [List.filterMap_cons]
    rw [weeklyLoop]
    rw [show weeklyRepLoop REQUIRED_DAYS menu cat = specWeeklyRep menu cat from
      weeklyRepLoop_eq_spec REQUIRED_DAYS menu cat]
    cases hrep : specWeeklyRep menu cat with
    | none => simpa [specWeeklyEntry, hrep] using ih
    | some item =>
      by_cases ht : truthy item = true
      · simp only [hrep, ht, if_true]
        simp only [specWeeklyEntry, hrep, ht, if_true]
        exact congrArg _ ih
      · simp only [hrep, Bool.not_eq_true] at ht
        simp only [hrep, ht, if_false]
        simpa [specWeeklyEntry, hrep, ht] using ih

/-- Keys never produced by the filterMap are absent. -/
theorem hasKey_filterMap_spec (cats : List String) (menu : PyDict)
    (assetsRel week_key cat : String)
    (h : specWeeklyEntry menu assetsRel week_key cat = Option.none) :
    hasKey (cats.filterMap (specWeeklyEntry menu assetsRel week_key)) cat = false := by
  induction cats with
  | nil => rfl
  | cons c rest ih =>
    rw [List.filterMap_cons]
    cases hc : specWeeklyEntry menu assetsRel week_key c with
    | none => simpa using ih
    | some e =>
      have he : e.1 = c := by
        rw [specWeeklyEntry] at hc
        cases hrep : specWeeklyRep menu c with
        | none =>
          simp only [hrep] at hc
          exact absurd hc (by simp)
        | some item =>
          simp only [hrep] at hc
          by_cases ht : truthy item = true
          · rw [if_pos ht] at hc
            cases hc
            rfl
          · rw [if_neg ht] at hc
            exact absurd hc (by simp)
      have hcne : (c == cat) = false := by
        by_cases hccat : c = cat
        · subst hccat
          rw [hc] at h
          exact absurd h (by simp)
        · exact beq_false_of_ne hccat
      rw [hasKey, he, hcne]
      simpa using ih

/-- Claim C3 (amended): the weeklyHighlights mapping built by
generate_weekly_highlights is exactly, in priority order, one entry
per priority category whose Monday→Friday scan finds a
case-insensitive mapping-shaped match that is non-empty — the first
match of the scan being the category's representative; a category
whose scan finds nothing (or whose first match is the Python-falsy
empty mapping) is absent from the mapping rather than present with a
null value. -/
theorem claim_C3 (menu : PyDict) (assetsRel week_key key : String)
    (oracle : String → Nat → Except String (List Nat)) :
    (generate_weekly_highlights menu assetsRel week_key key oracle).1 =
      CATEGORY_PRIORITY.filterMap (specWeeklyEntry menu assetsRel week_key) ∧
    ∀ cat, specWeeklyRep menu cat = Option.none →
      hasKey (generate_weekly_highlights menu assetsRel week_key key oracle).1 cat = false := by
  constructor
  · exact weeklyLoop_eq_spec CATEGORY_PRIORITY menu assetsRel week_key key oracle
  · intro cat hrep
    rw [generate_weekly_highlights, weeklyLoop_eq_spec]
    exact hasKey_filterMap_spec CATEGORY_PRIORITY menu assetsRel week_key cat
      (by rw [specWeeklyEntry, hrep])

/-- Witness for claim C3 at a concrete document: the week
`{"Monday": {"Soup": {"name": "x"}}}` has no "Carving" match, and the
theorem yields that "Carving" is absent from the weekly mapping. -/
theorem claim_C3_witness :
    hasKey (generate_weekly_highlights [("Monday", .dict [("Soup", .dict [("name", .str "x")])])]
      "assets" "wk" "key" (fun _ _ => .ok [1])).1 "Carving" = false :=
  (claim_C3 [("Monday", .dict [("Soup", .dict [("name", .str "x")])])]
    "assets" "wk" "key" (fun _ _ => .ok [1])).2 "Carving" rfl

/-- Claim C3 as frozen is false: in a week whose Monday has
`"Carving": {}` and whose Tuesday has `"Carving": {"name": "Beef"}`,
the Monday→Friday scan's first mapping-shaped match for "Carving"
exists (Monday's empty mapping), so the frozen claim puts "Carving" in
weeklyHighlights; the code instead drops the category entirely,
because the scan breaks at Monday's match and the Python-falsy empty
dict then fails the `if not representative_item` test. -/
theorem claim_C3_counterexample :
    specWeeklyRep
      [("Monday", .dict [("Carving", .dict [])]),
       ("Tuesday", .dict [("Carving", .dict [("name", .str "Beef")])])] "Carving" =
      some (PyVal.dict []) ∧
    (generate_weekly_highlights
      [("Monday", .dict [("Carving", .dict [])]),
       ("Tuesday", .dict [("Carving", .dict [("name", .str "Beef")])])]
      "assets" "wk" "key" (fun _ _ => .ok [1])).1 = [] := by
  refine ⟨rfl, rfl⟩

/-
Association-list (Python dict) lemmas, shared by several claims.
-/

theorem dictSet_pyGet_self (fs : PyDict) (k : String) (v : PyVal) :
    pyGet (dictSet fs k v) k = v := by
  induction fs with
  | nil => simp [dictSet, pyGet]
  | cons hd tl ih =>
    obtain ⟨k', w⟩ := hd
    by_cases h : (k' == k) = true
    · simp [dictSet, pyGet, h]
    · simp [dictSet, pyGet, h, ih]

theorem dictSet_pyGet_ne (fs : PyDict) (k k' : String) (v : PyVal) (hne : k' ≠ k) :
    pyGet (dictSet fs k v) k' = pyGet fs k' := by
  induction fs with
  | nil =>
    simp only [dictSet, pyGet]
    rw [if_neg]
    intro hc
    exact hne (Eq.symm (by simpa using hc))
  | cons hd tl ih =>
    obtain ⟨k0, w⟩ := hd
    by_cases h : (k0 == k) = true
    · have h0 : k0 = k := by simpa using h
      subst h0
      have hb : (k0 == k') = false := by
        simp only [beq_eq_false_iff_ne, ne_eq]
        exact fun hc => hne (Eq.symm hc)
      simp [dictSet, pyGet, hb]
    · simp [dictSet, pyGet, h, ih]

theorem dictSet_hasKey_self (fs : PyDict) (k : String) (v : PyVal) :
    hasKey (dictSet fs k v) k = true := by
  induction fs with
  | nil => simp [dictSet, hasKey]
  | cons hd tl ih =>
    obtain ⟨k', w⟩ := hd
    by_cases h : (k' == k) = true
    · simp [dictSet, hasKey, h]
    · simp [dictSet, hasKey, h, ih]

theorem dictSet_hasKey_ne (fs : PyDict) (k k' : String) (v : PyVal) (hne : k' ≠ k) :
    hasKey (dictSet fs k v) k' = hasKey fs k' := by
  induction fs with
  | nil =>
    simp only [dictSet, hasKey]
    rw [Bool.or_false]
    simp only [beq_eq_false_iff_ne, ne_eq]
    exact fun hc => hne (Eq.symm hc)
  | cons hd tl ih =>
    obtain ⟨k0, w⟩ := hd
    by_cases h : (k0 == k) = true
    · have h0 : k0 = k := by simpa using h
      subst h0
      simp [dictSet, hasKey, h]
    · simp [dictSet, hasKey, h, ih]

theorem dictSet_self_eq (fs : PyDict) (k : String)
    (hk : hasKey fs k = true) : dictSet fs k (pyGet fs k) = fs := by
  induction fs with
  | nil => simp [hasKey] at hk
  | cons hd tl ih =>
    obtain ⟨k', w⟩ := hd
    by_cases h : (k' == k) = true
    · simp [dictSet, pyGet, h]
    · have hb : (k' == k) = false := by simpa using h
      simp only [hasKey, hb, Bool.false_or] at hk
      simp [dictSet, pyGet, h, ih hk]

theorem dictSetdefault_of_hasKey (fs : PyDict) (k : String) (d : PyVal)
    (hk : hasKey fs k = true) : dictSetdefault fs k d = (pyGet fs k, fs) := by
  induction fs with
  | nil => simp [hasKey] at hk
  | cons hd tl ih =>
    obtain ⟨k', w⟩ := hd
    by_cases h : (k' == k) = true
    · simp [dictSetdefault, pyGet, h]
    · have hb : (k' == k) = false := by simpa using h
      simp only [hasKey, hb, Bool.false_or] at hk
      simp [dictSetdefault, pyGet, h, ih hk]

/-
Claim C1: the per-entry coercion of validate_menu_json.
-/

/-- The first-truthy scan over candidate keys agrees with the `or`
chain the source uses, one step at a time. -/
theorem firstTruthyField_cons (item : PyDict) (k : String) (ks : List String) :
    firstTruthyField item (k :: ks) =
      (if truthy (pyGet item k) then some (pyGet item k) else firstTruthyField item ks) := by
  rw [firstTruthyField, List.findSome?_cons]
  by_cases h : truthy (pyGet item k) = true
  · simp [h]
  · simp only [Bool.not_eq_true] at h
    simp [h, firstTruthyField]

/-- The four-key or-chain of the name lookup versus the
specification's first-match-wins scan. -/
theorem firstTruthyField_four (item : PyDict) (k1 k2 k3 k4 : String) :
    firstTruthyField item [k1, k2, k3, k4] =
      (if truthy (pyOr (pyGet item k1) (pyOr (pyGet item k2)
          (pyOr (pyGet item k3) (pyGet item k4)))) then
        some (pyOr (pyGet item k1) (pyOr (pyGet item k2)
          (pyOr (pyGet item k3) (pyGet item k4))))
      else Option.none) := by
  by_cases h1 : truthy (pyGet item k1) = true <;>
    by_cases h2 : truthy (pyGet item k2) = true <;>
      by_cases h3 : truthy (pyGet item k3) = true <;>
        by_cases h4 : truthy (pyGet item k4) = true <;>
          simp [firstTruthyField_cons, firstTruthyField, pyOr, h1, h2, h3, h4]

/-- The two-key or-chain with a string default, as used for the
description and price lookups: falling back to the default on a
missed scan is the same as appending the (always truthy when nonempty,
and otherwise irrelevant) default to the or-chain. -/
theorem firstTruthyField_two (item : PyDict) (k1 k2 : String) (d : String) :
    (match firstTruthyField item [k1, k2] with
      | some v => v
      | Option.none => PyVal.str d) =
      pyOr (pyGet item k1) (pyOr (pyGet item k2) (.str d)) := by
  by_cases h1 : truthy (pyGet item k1) = true <;>
    by_cases h2 : truthy (pyGet item k2) = true <;>
      simp [firstTruthyField_cons, firstTruthyField, pyOr, h1, h2]

/-- validate_menu_json succeeds whenever every present required day is
mapping-shaped (item drops are warnings, never errors). -/
theorem validateDays_ok (days : List String) (menu : PyDict)
    (h : ∀ day ∈ days, hasKey menu day = true → (pyGet menu day).isDict = true) :
    ∃ out, validateDays days menu = .ok out := by
  induction days generalizing menu with
  | nil => exact ⟨menu, rfl⟩
  | cons day rest ih =>
    by_cases hk : hasKey menu day = true
    · have hd := h day (List.mem_cons_self day rest) hk
      cases hv : pyGet menu day with
      | dict dm =>
        have hrest : ∀ d ∈ rest, hasKey (dictSet menu day (.dict (normalizeDayMenu dm))) d = true →
            (pyGet (dictSet menu day (.dict (normalizeDayMenu dm))) d).isDict = true := by
          intro d hdm hkd
          by_cases hdd : d = day
          · subst hdd
            rw [dictSet_pyGet_self]
            rfl
          · rw [dictSet_pyGet_ne menu day d _ hdd]
            rw [dictSet_hasKey_ne menu day d _ hdd] at hkd
            exact h d (List.mem_cons_of_mem day hdm) hkd
        obtain ⟨out, hout⟩ := ih (dictSet menu day (.dict (normalizeDayMenu dm))) hrest
        refine ⟨out, ?_⟩
        simp only [validateDays, hk, Bool.not_true, hv]
        exact hout
      | str s => rw [hv] at hd; exact absurd hd (by simp [PyVal.isDict])
      | int n => rw [hv] at hd; exact absurd hd (by simp [PyVal.isDict])
      | bool b => rw [hv] at hd; exact absurd hd (by simp [PyVal.isDict])
      | none => rw [hv] at hd; exact absurd hd (by simp [PyVal.isDict])
      | list xs => rw [hv] at hd; exact absurd hd (by simp [PyVal.isDict])
    · have hrest : ∀ d ∈ rest, hasKey menu d = true → (pyGet menu d).isDict = true :=
        fun d hdm => h d (List.mem_cons_of_mem day hdm)
      obtain ⟨out, hout⟩ := ih menu hrest
      refine ⟨out, ?_⟩
      simp only [Bool.not_eq_true] at hk
      simp only [validateDays, hk, Bool.not_false, if_true]
      exact hout

/-- Claim C1 (amended): coerce_menu_item is exactly the
specification-side coercion — a mapping resolves name/description/
price through the stated candidate-key chains with "" and
"Market Price" as defaults, a string or list of strings contributes
its stripped text, and other shapes or a missing truthy name are
dropped; the normalized day menu keeps, in order, exactly the entries
whose coercion succeeds; and dropping entries never aborts the run
(validation fails only when a present weekday is not mapping-shaped).
The amendment: the name stored for a mapping entry is the *stripped*
resolved name, which is empty when the resolved name was
whitespace-only — so a non-empty stored name is guaranteed for string
and list entries but not for mapping entries (see the
counterexample); similarly a whitespace-only plain string is dropped
rather than kept. -/
theorem claim_C1 :
    (∀ item, coerce_menu_item item = specCoerceItem item) ∧
    (∀ dm, normalizeDayMenu dm =
      dm.filterMap (fun ci => (specCoerceItem ci.2).map (fun ni => (ci.1, ni)))) ∧
    (∀ doc, (∀ day ∈ REQUIRED_DAYS, hasKey doc day = true → (pyGet doc day).isDict = true) →
      ∃ out, validate_menu_json doc = .ok out) := by
  have hitem : ∀ item, coerce_menu_item item = specCoerceItem item := by
    intro item
    cases item with
    | dict item =>
      rw [coerce_menu_item, specCoerceItem, firstTruthyField_four]
      by_cases h : truthy (pyOr (pyGet item "name") (pyOr (pyGet item "title")
          (pyOr (pyGet item "item") (pyGet item "dish")))) = true
      · rw [if_pos h, h]
        simp only [Bool.not_true, Bool.false_eq_true, if_false]
        have hdesc := firstTruthyField_two item "description" "details" ""
        have hprice := firstTruthyField_two item "price" "cost" "Market Price"
        cases hd : firstTruthyField item ["description", "details"] with
        | none =>
          rw [hd] at hdesc
          cases hp : firstTruthyField item ["price", "cost"] with
          | none =>
            rw [hp] at hprice
            simp only [specMenuItem, ← hdesc, ← hprice]
            all_goals rfl
          | some pv =>
            rw [hp] at hprice
            simp only [specMenuItem, ← hdesc, ← hprice]
            all_goals rfl
        | some dv =>
          rw [hd] at hdesc
          cases hp : firstTruthyField item ["price", "cost"] with
          | none =>
            rw [hp] at hprice
            simp only [specMenuItem, ← hdesc, ← hprice]
            all_goals rfl
          | some pv =>
            rw [hp] at hprice
            simp only [specMenuItem, ← hdesc, ← hprice]
            all_goals rfl
      · simp only [Bool.not_eq_true] at h
        have hne : ¬ (truthy (pyOr (pyGet item "name") (pyOr (pyGet item "title")
            (pyOr (pyGet item "item") (pyGet item "dish")))) = true) := by
          rw [h]
          exact Bool.false_ne_true
        rw [if_neg hne, h]
        simp
    | str s => rfl
    | int n => rfl
    | bool b => rfl
    | none => rfl
    | list xs =>
      rw [coerce_menu_item, specCoerceItem]
      have hparts : xs.filterMap (fun part =>
          let t := pyStrip (pyStr part)
          if t == "" then Option.none else some t) =
          (xs.map (fun p => pyStrip (pyStr p))).filter (fun t => t != "") := by
        induction xs with
        | nil => rfl
        | cons x rest ih =>
          simp only [List.filterMap_cons, List.map_cons, List.filter_cons]
          by_cases hx : pyStrip (pyStr x) = ""
          · simp [hx]
            simpa using ih
          · simp [hx]
            simpa using ih
      rw [hparts]
      rcases hemp : (xs.map (fun p => pyStrip (pyStr p))).filter (fun t => t != "") with _ | ⟨a, t⟩
      · simp [specMenuItem]
      · simp [specMenuItem]
  refine ⟨hitem, ?_, ?_⟩
  · intro dm
    induction dm with
    | nil => rfl
    | cons hd tl ih =>
      obtain ⟨c, i⟩ := hd
      rw [List.filterMap_cons]
      cases hc : specCoerceItem i with
      | none =>
        rw [normalizeDayMenu, hitem i, hc]
        simpa using ih
      | some ni =>
        rw [normalizeDayMenu, hitem i, hc]
        simpa using ih
  · intro doc h
    exact validateDays_ok REQUIRED_DAYS doc h

/-- Witness for claim C1 at a concrete document whose Tuesday is
missing and whose Monday drops one malformed entry: validation
succeeds. -/
theorem claim_C1_witness :
    ∃ out, validate_menu_json
      [("Monday", .dict [("Soup", .str "Tomato Bisque"), ("Deli", .int 3)]),
       ("note", .str "kept")] = .ok out :=
  claim_C1.2.2
    [("Monday", .dict [("Soup", .str "Tomato Bisque"), ("Deli", .int 3)]),
     ("note", .str "kept")] (by decide)

/-- Claim C1 as frozen is false: the mapping entry `{"name": " "}`
resolves a non-empty (truthy) name, so it is *retained*, but the
stored name is the stripped value "" — a retained MenuItem with an
empty name, contradicting "every retained MenuItem has a non-empty
name". -/
theorem claim_C1_counterexample :
    coerce_menu_item (.dict [("name", .str " ")]) =
      some (.dict [("name", .str ""), ("description", .str ""),
        ("price", .str "Market Price")]) ∧
    pyGetPath ((coerce_menu_item (.dict [("name", .str " ")])).getD .none) ["name"] =
      .str "" := by
  refine ⟨rfl, rfl⟩

/-
Claim C9: slugify.  The source strips whitespace before lowercasing
and collapsing; the claim's description has no strip.  The lemmas
below show the strip is absorbed: stripped-off whitespace runs
collapse into hyphens that the final strip("-") removes anyway.
-/

/-- A whitespace character is not alphanumeric, even after
lowercasing. -/
theorem pySpace_not_alnum {c : Char} (h : isPySpace c = true) :
    isAsciiAlnum (pyLowerChar c) = false := by
  simp only [isPySpace, Bool.or_eq_true, beq_iff_eq] at h
  rcases h with ((((((((((((((((((rfl)|rfl)|rfl)|rfl)|rfl)|rfl)|rfl)|rfl)|rfl)|rfl)|rfl)|rfl)|rfl)|hr)|rfl)|rfl)|rfl)|rfl)|rfl
  all_goals try decide
  rw [Bool.and_eq_true] at hr
  have h1 : 8192 ≤ c.toNat := by
    have h3 := of_decide_eq_true hr.1
    rw [Char.le_def] at h3
    exact h3
  have h2 : c.toNat ≤ 8202 := by
    have h3 := of_decide_eq_true hr.2
    rw [Char.le_def] at h3
    exact h3
  rw [pyLowerChar, if_neg (by omega)]
  apply Bool.eq_false_iff.mpr
  intro h4
  simp only [isAsciiAlnum, Bool.or_eq_true, Bool.and_eq_true, decide_eq_true_eq] at h4
  omega

/-- Once inside a run, a block of non-alphanumeric characters is
skipped without output. -/
theorem collapseGo_skip (w x : List Char) (h : ∀ c ∈ w, isAsciiAlnum c = false) :
    collapseGo true (w ++ x) = collapseGo true x := by
  induction w with
  | nil => rfl
  | cons a w' ih =>
    have ha := h a (List.mem_cons_self a w')
    rw [List.cons_append, collapseGo, ha]
    simp only [Bool.false_eq_true, if_false, if_true]
    exact ih (fun c hc => h c (List.mem_cons_of_mem a hc))

/-- An alphanumeric character is not a hyphen. -/
theorem alnum_ne_dash {c : Char} (h : isAsciiAlnum c = true) : (c == '-') = false := by
  rcases hbe : (c == '-') with _ | _
  · rfl
  · have : c = '-' := by simpa using hbe
    subst this
    exact absurd h (by decide)

/-- After dropping leading hyphens, the starting run-state of the
collapse is irrelevant. -/
theorem collapse_state_stripStart (x : List Char) :
    (collapseGo true x).dropWhile (fun c => c == '-') =
      (collapseGo false x).dropWhile (fun c => c == '-') := by
  cases x with
  | nil => rfl
  | cons c t =>
    by_cases hc : isAsciiAlnum c = true
    · rw [collapseGo, collapseGo, hc]
      simp
    · have hc' : isAsciiAlnum c = false := by simpa using hc
      rw [collapseGo, collapseGo, hc']
      simp only [Bool.false_eq_true, if_false, if_true]
      rw [List.dropWhile_cons_of_pos (by simp)]

/-- Claim C9 key lemma, leading side: a leading non-alphanumeric block
does not change the collapsed-and-hyphen-stripped result. -/
theorem collapse_strip_append_left (w x : List Char)
    (h : ∀ c ∈ w, isAsciiAlnum c = false) :
    stripCharEnds '-' (collapseNonAlnum (w ++ x)) =
      stripCharEnds '-' (collapseNonAlnum x) := by
  cases w with
  | nil => rfl
  | cons a w' =>
    have ha := h a (List.mem_cons_self a w')
    have hwx : collapseNonAlnum ((a :: w') ++ x) = '-' :: collapseGo true (w' ++ x) := by
      rw [collapseNonAlnum, List.cons_append, collapseGo, ha]
      simp
    rw [hwx, collapseGo_skip w' x (fun c hc => h c (List.mem_cons_of_mem a hc))]
    rw [stripCharEnds, stripCharEnds]
    rw [List.dropWhile_cons_of_pos (by simp)]
    rw [collapse_state_stripStart]
    rfl

/-- A trailing non-alphanumeric block contributes at most one trailing
hyphen to the collapse. -/
theorem collapseGo_append_run (x : List Char) :
    ∀ (b : Bool) (w : List Char), (∀ c ∈ w, isAsciiAlnum c = false) →
      ∃ z, collapseGo b (x ++ w) = collapseGo b x ++ z ∧ (z = [] ∨ z = ['-']) := by
  induction x with
  | nil =>
    intro b w h
    cases b with
    | true =>
      refine ⟨[], ?_, Or.inl rfl⟩
      have := collapseGo_skip w [] h
      simpa using this
    | false =>
      cases w with
      | nil => exact ⟨[], rfl, Or.inl rfl⟩
      | cons a w' =>
        refine ⟨['-'], ?_, Or.inr rfl⟩
        have ha := h a (List.mem_cons_self a w')
        have hskip := collapseGo_skip w' [] (fun c hc => h c (List.mem_cons_of_mem a hc))
        simp only [List.append_nil, collapseGo] at hskip
        simp only [List.nil_append, collapseGo, ha, Bool.false_eq_true, if_false, if_true]
        simp [hskip]
  | cons c t ih =>
    intro b w h
    by_cases hc : isAsciiAlnum c = true
    · obtain ⟨z, hz, hz2⟩ := ih false w h
      refine ⟨z, ?_, hz2⟩
      simp only [List.cons_append, collapseGo, hc, if_true]
      simp [hz]
    · have hc' : isAsciiAlnum c = false := by simpa using hc
      cases b with
      | true =>
        obtain ⟨z, hz, hz2⟩ := ih true w h
        refine ⟨z, ?_, hz2⟩
        simp only [List.cons_append, collapseGo, hc', Bool.false_eq_true, if_false, if_true]
        exact hz
      | false =>
        obtain ⟨z, hz, hz2⟩ := ih true w h
        refine ⟨z, ?_, hz2⟩
        simp only [List.cons_append, collapseGo, hc', Bool.false_eq_true, if_false, if_true]
        simp [hz]

/-- The final strip("-") removes a trailing hyphen. -/
theorem stripCharEnds_append_dash (y : List Char) :
    stripCharEnds '-' (y ++ ['-']) = stripCharEnds '-' y := by
  rw [stripCharEnds, stripCharEnds]
  rw [List.dropWhile_append]
  by_cases hy : (y.dropWhile (fun c => c == '-')).isEmpty = true
  · have hy' : y.dropWhile (fun c => c == '-') = [] := by simpa using hy
    rw [if_pos hy, hy']
    simp
  · rw [if_neg hy]
    simp

/-- Claim C9 key lemma, trailing side. -/
theorem collapse_strip_append_right (x w : List Char)
    (h : ∀ c ∈ w, isAsciiAlnum c = false) :
    stripCharEnds '-' (collapseNonAlnum (x ++ w)) =
      stripCharEnds '-' (collapseNonAlnum x) := by
  obtain ⟨z, hz, hz2⟩ := collapseGo_append_run x false w h
  rw [collapseNonAlnum, hz]
  rcases hz2 with rfl | rfl
  · simp [collapseNonAlnum]
  · rw [stripCharEnds_append_dash]
    rfl

/-- Every character list splits as leading whitespace, its stripped
core, and trailing whitespace. -/
theorem stripDecomp (l : List Char) :
    ∃ w1 w2, l = w1 ++ pyStripChars l ++ w2 ∧
      (∀ c ∈ w1, isPySpace c = true) ∧ (∀ c ∈ w2, isPySpace c = true) := by
  refine ⟨l.takeWhile isPySpace,
    ((l.dropWhile isPySpace).reverse.takeWhile isPySpace).reverse, ?_, ?_, ?_⟩
  · have hmid : l.dropWhile isPySpace =
        ((l.dropWhile isPySpace).reverse.dropWhile isPySpace).reverse ++
        ((l.dropWhile isPySpace).reverse.takeWhile isPySpace).reverse := by
      have h1 := List.takeWhile_append_dropWhile isPySpace (l.dropWhile isPySpace).reverse
      calc l.dropWhile isPySpace
          = (l.dropWhile isPySpace).reverse.reverse := (List.reverse_reverse _).symm
        _ = ((l.dropWhile isPySpace).reverse.takeWhile isPySpace ++
              (l.dropWhile isPySpace).reverse.dropWhile isPySpace).reverse := by rw [h1]
        _ = _ := by rw [List.reverse_append]
    conv_lhs => rw [← List.takeWhile_append_dropWhile isPySpace l]
    rw [pyStripChars, List.append_assoc]
    exact congrArg _ hmid
  · exact fun c hc => List.mem_takeWhile_imp hc
  · intro c hc
    rw [List.mem_reverse] at hc
    exact List.mem_takeWhile_imp hc

/-- Claim C9 (confirmed): slugify is exactly the claimed description —
lowercase, collapse each run of non-alphanumeric characters to one
hyphen, trim hyphens at both ends, default to "item" — and the two
quoted examples hold.  (The source's extra leading `.strip()` is
immaterial: stripped whitespace would collapse into end hyphens that
the final trim removes.) -/
theorem claim_C9 :
    (∀ value, slugify value = specSlugify value) ∧
    slugify "Plant Power!" = "plant-power" ∧
    slugify "" = "item" := by
  refine ⟨?_, rfl, rfl⟩
  intro value
  have hval : (if value == "" then "" else value) = value := by
    by_cases h : value = ""
    · simp [h]
    · simp [h]
  rw [slugify, specSlugify, hval]
  have hdata : (pyLower (pyStrip value)).data = (pyStripChars value.data).map pyLowerChar := rfl
  have hdata2 : (pyLower value).data = value.data.map pyLowerChar := rfl
  rw [hdata, hdata2]
  obtain ⟨w1, w2, hsplit, hw1, hw2⟩ := stripDecomp value.data
  have hmap : value.data.map pyLowerChar =
      (w1.map pyLowerChar) ++ ((pyStripChars value.data).map pyLowerChar ++ w2.map pyLowerChar) := by
    conv_lhs => rw [hsplit]
    simp [List.map_append]
  rw [hmap]
  rw [collapse_strip_append_left (w1.map pyLowerChar) _ (by
    intro c hc
    rw [List.mem_map] at hc
    obtain ⟨c', hc', rfl⟩ := hc
    exact pySpace_not_alnum (hw1 c' hc'))]
  rw [collapse_strip_append_right _ (w2.map pyLowerChar) (by
    intro c hc
    rw [List.mem_map] at hc
    obtain ⟨c', hc', rfl⟩ := hc
    exact pySpace_not_alnum (hw2 c' hc'))]

/-
Claim C8: normalize_price is idempotent.  The replacement machinery
below shows that a replaceAll pass leaves no occurrence of its pattern
when the replacement shares no character with the pattern, and that
stripping is idempotent and occurrence-monotone.
-/

/-- Fuel does not matter once it covers the input length. -/
theorem replaceAllFuel_congr (p r : List Char) :
    ∀ (f g : Nat) (s : List Char), s.length ≤ f → s.length ≤ g →
      replaceAllFuel f p r s = replaceAllFuel g p r s := by
  intro f
  induction f with
  | zero =>
    intro g s hf _
    have hs : s = [] := List.eq_nil_of_length_eq_zero (Nat.le_zero.mp hf)
    subst hs
    cases g <;> rfl
  | succ f' ih =>
    intro g s hf hg
    cases s with
    | nil => cases g <;> rfl
    | cons c t =>
      cases g with
      | zero => simp at hg
      | succ g' =>
        simp only [List.length_cons] at hf hg
        by_cases h : p ≠ [] ∧ leadsList p (c :: t) = true
        · have hp1 : 1 ≤ p.length := by
            cases p with
            | nil => exact absurd rfl h.1
            | cons a q => simp
          simp only [replaceAllFuel, if_pos h]
          have hlen : ((c :: t).drop p.length).length ≤ f' := by
            simp only [List.length_drop, List.length_cons]
            omega
          have hlen2 : ((c :: t).drop p.length).length ≤ g' := by
            simp only [List.length_drop, List.length_cons]
            omega
          rw [ih g' _ hlen hlen2]
        · simp only [replaceAllFuel, if_neg h]
          rw [ih g' t (by omega) (by omega)]

/-- One-step unfolding of replaceAll on a cons cell. -/
theorem replaceAll_cons (p r : List Char) (c : Char) (t : List Char) :
    replaceAll p r (c :: t) =
      if p ≠ [] ∧ leadsList p (c :: t) = true then
        r ++ replaceAll p r ((c :: t).drop p.length)
      else
        c :: replaceAll p r t := by
  rw [replaceAll]
  simp only [List.length_cons, replaceAllFuel]
  by_cases h : p ≠ [] ∧ leadsList p (c :: t) = true
  · rw [if_pos h, if_pos h]
    have hp1 : 1 ≤ p.length := by
      cases p with
      | nil => exact absurd rfl h.1
      | cons a q => simp
    rw [replaceAllFuel_congr p r t.length ((c :: t).drop p.length).length _
      (by simp only [List.length_drop, List.length_cons]; omega) (le_refl _)]
    rfl
  · rw [if_neg h, if_neg h, replaceAll]

/-- replaceAll leaves an occurrence-free string unchanged. -/
theorem replaceAll_of_not_contains (p r : List Char) :
    ∀ s, containsSeq p s = false → replaceAll p r s = s := by
  intro s
  induction s with
  | nil => intro _; rfl
  | cons c t ih =>
    intro h
    rw [containsSeq, Bool.or_eq_false_iff] at h
    rw [replaceAll_cons, if_neg (fun hc => by rw [h.1] at hc; exact Bool.false_ne_true hc.2)]
    rw [ih h.2]

/-- Characters of a replaceAll output come from the input or the
replacement. -/
theorem mem_replaceAllFuel (p r : List Char) (x : Char) :
    ∀ (f : Nat) (s : List Char), x ∈ replaceAllFuel f p r s → x ∈ s ∨ x ∈ r := by
  intro f
  induction f with
  | zero => exact fun s h => Or.inl h
  | succ f' ih =>
    intro s h
    cases s with
    | nil => simp [replaceAllFuel] at h
    | cons c t =>
      by_cases hcond : p ≠ [] ∧ leadsList p (c :: t) = true
      · rw [replaceAllFuel, if_pos hcond] at h
        rcases List.mem_append.mp h with hr | hz
        · exact Or.inr hr
        · rcases ih _ hz with hs | hr
          · exact Or.inl (List.mem_of_mem_drop hs)
          · exact Or.inr hr
      · rw [replaceAllFuel, if_neg hcond] at h
        rcases List.mem_cons.mp h with rfl | hz
        · exact Or.inl (List.mem_cons_self _ _)
        · rcases ih _ hz with hs | hr
          · exact Or.inl (List.mem_cons_of_mem _ hs)
          · exact Or.inr hr

theorem mem_replaceAll (p r : List Char) (x : Char) (s : List Char)
    (h : x ∈ replaceAll p r s) : x ∈ s ∨ x ∈ r :=
  mem_replaceAllFuel p r x s.length s h

/-- A leading-segment match extends over an appended tail. -/
theorem leadsList_append (p : List Char) :
    ∀ s v, leadsList p s = true → leadsList p (s ++ v) = true := by
  induction p with
  | nil => intro s v _; rfl
  | cons a p' ih =>
    intro s v h
    cases s with
    | nil => simp [leadsList] at h
    | cons b s' =>
      rw [leadsList, Bool.and_eq_true] at h
      rw [List.cons_append, leadsList, Bool.and_eq_true]
      exact ⟨h.1, ih s' v h.2⟩

/-- Occurrences survive appending on the right. -/
theorem containsSeq_append_right (p : List Char) :
    ∀ s v, containsSeq p s = true → containsSeq p (s ++ v) = true := by
  intro s
  induction s with
  | nil =>
    intro v h
    rw [containsSeq] at h
    simp only [Bool.or_false] at h
    cases p with
    | nil => cases v <;> simp [containsSeq, leadsList]
    | cons a q => simp [leadsList] at h
  | cons c t ih =>
    intro v h
    rw [containsSeq, Bool.or_eq_true] at h
    rw [List.cons_append, containsSeq, Bool.or_eq_true]
    rcases h with h | h
    · exact Or.inl (leadsList_append p _ v h)
    · exact Or.inr (ih v h)

/-- Occurrences survive prepending on the left. -/
theorem containsSeq_append_left (p : List Char) (u : List Char) :
    ∀ z, containsSeq p z = true → containsSeq p (u ++ z) = true := by
  induction u with
  | nil => exact fun z h => h
  | cons a u' ih =>
    intro z h
    rw [List.cons_append, containsSeq, Bool.or_eq_true]
    exact Or.inr (ih z h)

/-- Single-character occurrence is membership. -/
theorem containsSeq_single (a : Char) :
    ∀ s, containsSeq [a] s = true ↔ a ∈ s := by
  intro s
  induction s with
  | nil => simp [containsSeq, leadsList]
  | cons c t ih =>
    rw [containsSeq, Bool.or_eq_true, leadsList]
    simp only [Bool.and_eq_true, beq_iff_eq, List.mem_cons]
    constructor
    · rintro (⟨rfl, _⟩ | h)
      · exact Or.inl rfl
      · exact Or.inr (ih.mp h)
    · rintro (rfl | h)
      · exact Or.inl ⟨rfl, rfl⟩
      · exact Or.inr (ih.mpr h)

/-- Transfer of a mid-pattern leading match back through replaceAll:
if a proper tail of the pattern leads the rewritten string, it already
led the original (the replacement's characters, disjoint from the
pattern's, cannot take part in such a match). -/
theorem leadsList_drop_transfer (p r : List Char) (hp : p ≠ []) (hr : r ≠ [])
    (h1 : ∀ x ∈ r, x ∉ p) :
    ∀ (w : List Char) (k : Nat), 1 ≤ k →
      leadsList (p.drop k) (replaceAll p r w) = true → leadsList (p.drop k) w = true := by
  intro w
  induction w with
  | nil => exact fun k _ h => h
  | cons d t ih =>
    intro k hk h
    rw [replaceAll_cons] at h
    by_cases hcond : p ≠ [] ∧ leadsList p (d :: t) = true
    · rw [if_pos hcond] at h
      cases hq : p.drop k with
      | nil => rfl
      | cons q0 q' =>
        cases r with
        | nil => exact absurd rfl hr
        | cons r0 r' =>
          rw [hq, List.cons_append] at h
          simp only [leadsList, Bool.and_eq_true, beq_iff_eq] at h
          have hq0p : q0 ∈ p := List.mem_of_mem_drop (hq ▸ List.mem_cons_self q0 q')
          have hr0 : r0 ∉ p := h1 r0 (List.mem_cons_self r0 r')
          exact absurd (h.1 ▸ hq0p) hr0
    · rw [if_neg hcond] at h
      cases hq : p.drop k with
      | nil => rfl
      | cons q0 q' =>
        rw [hq] at h
        simp only [leadsList, Bool.and_eq_true] at h
        have hq' : p.drop (k + 1) = q' := by
          have h2 : (p.drop k).drop 1 = p.drop (k + 1) := by
            rw [List.drop_drop]
          rw [← h2, hq]
          rfl
        have ht : leadsList (p.drop (k + 1)) t = true := by
          apply ih (k + 1) (by omega)
          rw [hq']
          exact h.2
        simp only [leadsList, Bool.and_eq_true]
        refine ⟨h.1, ?_⟩
        rw [← hq']
        exact ht

/-- A block whose characters avoid the pattern's first character
cannot start an occurrence. -/
theorem containsSeq_append_no_first (p : List Char) (hp : p ≠ []) :
    ∀ (r' z : List Char), (∀ x ∈ r', x ∉ p) →
      containsSeq p (r' ++ z) = containsSeq p z := by
  intro r'
  induction r' with
  | nil => exact fun z _ => rfl
  | cons a u ih =>
    intro z h
    rw [List.cons_append, containsSeq]
    have hlead : leadsList p (a :: (u ++ z)) = false := by
      cases p with
      | nil => exact absurd rfl hp
      | cons p0 q =>
        rw [leadsList]
        have : (p0 == a) = false := by
          apply beq_false_of_ne
          intro he
          exact h a (List.mem_cons_self a u) (he ▸ List.mem_cons_self p0 q)
        rw [this]
        rfl
    rw [hlead, Bool.false_or]
    exact ih z (fun x hx => h x (List.mem_cons_of_mem a hx))

/-- After one replaceAll pass with a replacement sharing no character
with the (nonempty) pattern, no occurrence of the pattern remains. -/
theorem not_contains_replaceAllFuel (p r : List Char) (hp : p ≠ []) (hr : r ≠ [])
    (h1 : ∀ x ∈ r, x ∉ p) :
    ∀ (f : Nat) (s : List Char), s.length ≤ f →
      containsSeq p (replaceAllFuel f p r s) = false := by
  obtain ⟨p0, q, rfl⟩ : ∃ p0 q, p = p0 :: q := by
    cases p with
    | nil => exact absurd rfl hp
    | cons p0 q => exact ⟨p0, q, rfl⟩
  intro f
  induction f with
  | zero =>
    intro s hf
    have hs : s = [] := List.eq_nil_of_length_eq_zero (Nat.le_zero.mp hf)
    subst hs
    rfl
  | succ f' ih =>
    intro s hf
    cases s with
    | nil => rfl
    | cons c t =>
      simp only [List.length_cons] at hf
      by_cases hcond : (p0 :: q) ≠ [] ∧ leadsList (p0 :: q) (c :: t) = true
      · rw [replaceAllFuel, if_pos hcond]
        rw [containsSeq_append_no_first (p0 :: q) hp r _ h1]
        exact ih _ (by simp only [List.length_drop, List.length_cons]; omega)
      · rw [replaceAllFuel, if_neg hcond]
        have hz : containsSeq (p0 :: q) (replaceAllFuel f' (p0 :: q) r t) = false :=
          ih t (by omega)
        rw [containsSeq, hz, Bool.or_false]
        apply Bool.eq_false_iff.mpr
        intro hlead
        apply hcond
        refine ⟨hp, ?_⟩
        simp only [leadsList, Bool.and_eq_true] at hlead
        have hfuel : replaceAllFuel f' (p0 :: q) r t = replaceAll (p0 :: q) r t :=
          replaceAllFuel_congr (p0 :: q) r f' t.length t (by omega) (le_refl _)
        have ht : leadsList ((p0 :: q).drop 1) t = true := by
          apply leadsList_drop_transfer (p0 :: q) r hp hr h1 t 1 (le_refl 1)
          rw [show (p0 :: q).drop 1 = q from rfl, ← hfuel]
          exact hlead.2
        simp only [leadsList, Bool.and_eq_true]
        exact ⟨hlead.1, ht⟩

theorem not_contains_replaceAll (p r : List Char) (hp : p ≠ []) (hr : r ≠ [])
    (h1 : ∀ x ∈ r, x ∉ p) (s : List Char) :
    containsSeq p (replaceAll p r s) = false :=
  not_contains_replaceAllFuel p r hp hr h1 s.length s (le_refl _)

/-- The head surviving a dropWhile fails the predicate. -/
theorem dropWhile_head_false (q : Char → Bool) :
    ∀ (l : List Char) (c : Char) (rest : List Char),
      l.dropWhile q = c :: rest → q c = false := by
  intro l
  induction l with
  | nil => intro c rest h; simp at h
  | cons a t ih =>
    intro c rest h
    by_cases ha : q a = true
    · rw [List.dropWhile_cons_of_pos ha] at h
      exact ih c rest h
    · have ha' : q a = false := by simpa using ha
      rw [List.dropWhile_cons_of_neg (by simp [ha'])] at h
      cases h
      exact ha'

/-- dropWhile is idempotent. -/
theorem dropWhile_idem (q : Char → Bool) (l : List Char) :
    (l.dropWhile q).dropWhile q = l.dropWhile q := by
  cases h : l.dropWhile q with
  | nil => rfl
  | cons c rest =>
    have hc := dropWhile_head_false q l c rest h
    exact List.dropWhile_cons_of_neg (by simp [hc])

/-- Python str.strip is idempotent. -/
theorem pyStripChars_idem (l : List Char) :
    pyStripChars (pyStripChars l) = pyStripChars l := by
  have hA : (pyStripChars l).dropWhile isPySpace = pyStripChars l := by
    rw [pyStripChars]
    cases hmr : ((l.dropWhile isPySpace).reverse.dropWhile isPySpace).reverse with
    | nil => simp
    | cons c0 w =>
      obtain ⟨u, hu⟩ : (l.dropWhile isPySpace).reverse.dropWhile isPySpace <:+
          (l.dropWhile isPySpace).reverse := List.dropWhile_suffix isPySpace
      have hd1 : l.dropWhile isPySpace =
          ((l.dropWhile isPySpace).reverse.dropWhile isPySpace).reverse ++ u.reverse := by
        have := congrArg List.reverse hu
        rw [List.reverse_append, List.reverse_reverse] at this
        exact this.symm
      rw [hmr] at hd1
      have hc0 : isPySpace c0 = false :=
        dropWhile_head_false isPySpace l c0 (w ++ u.reverse) (by rw [hd1]; rfl)
      rw [← hmr]
      rw [hmr]
      exact List.dropWhile_cons_of_neg (by simp [hc0])
  rw [pyStripChars, hA]
  rw [show pyStripChars l =
    ((l.dropWhile isPySpace).reverse.dropWhile isPySpace).reverse from rfl]
  rw [List.reverse_reverse, dropWhile_idem, ← pyStripChars]

/-- Occurrences in the stripped string occur in the original. -/
theorem containsSeq_strip_mono (p l : List Char)
    (h : containsSeq p (pyStripChars l) = true) : containsSeq p l = true := by
  obtain ⟨w1, w2, hsplit, _, _⟩ := stripDecomp l
  rw [hsplit, List.append_assoc]
  exact containsSeq_append_left p w1 _
    (containsSeq_append_right p _ w2 h)

/-- Python `value or ""` then str() is the identity on strings. -/
theorem pyStr_pyOr_str (t : String) : pyStr (pyOr (.str t) (.str "")) = t := by
  by_cases h : t = ""
  · subst h
    rfl
  · have ht : truthy (.str t) = true := by simp [truthy, h]
    rw [pyOr, if_pos ht]
    rfl

/-- Claim C8 (confirmed): normalize_price is idempotent on every
string, and its output is free of en dashes and of the mis-encoded
en dash sequence (both replaced by a plain hyphen). -/
theorem claim_C8 (s : String) :
    normalize_price (.str (normalize_price (.str s))) = normalize_price (.str s) ∧
    containsSeq ['–'] (normalize_price (.str s)).data = false ∧
    containsSeq ['â', '€', '“'] (normalize_price (.str s)).data = false := by
  have hdata : ∀ t : String, (normalize_price (.str t)).data =
      pyStripChars (replaceAll ['â', '€', '“'] ['-'] (replaceAll ['–'] ['-'] t.data)) := by
    intro t
    rw [normalize_price, pyStr_pyOr_str]
  have hen1 : containsSeq ['–'] (replaceAll ['–'] ['-'] s.data) = false :=
    not_contains_replaceAll ['–'] ['-'] (by decide) (by decide) (by decide) s.data
  have henmem : '–' ∉ replaceAll ['–'] ['-'] s.data := by
    intro hmem
    rw [(containsSeq_single '–' _).mpr hmem] at hen1
    simp at hen1
  have henmem2 : '–' ∉ replaceAll ['â', '€', '“'] ['-'] (replaceAll ['–'] ['-'] s.data) := by
    intro hmem
    rcases mem_replaceAll _ _ _ _ hmem with hs | hrr
    · exact henmem hs
    · simp at hrr
  have hen2 : containsSeq ['–']
      (replaceAll ['â', '€', '“'] ['-'] (replaceAll ['–'] ['-'] s.data)) = false := by
    apply Bool.eq_false_iff.mpr
    intro hc
    exact henmem2 ((containsSeq_single '–' _).mp hc)
  have hmoj2 : containsSeq ['â', '€', '“']
      (replaceAll ['â', '€', '“'] ['-'] (replaceAll ['–'] ['-'] s.data)) = false :=
    not_contains_replaceAll ['â', '€', '“'] ['-'] (by decide) (by decide) (by decide) _
  have heny : containsSeq ['–'] (normalize_price (.str s)).data = false := by
    rw [hdata]
    apply Bool.eq_false_iff.mpr
    intro hc
    rw [containsSeq_strip_mono _ _ hc] at hen2
    simp at hen2
  have hmojy : containsSeq ['â', '€', '“'] (normalize_price (.str s)).data = false := by
    rw [hdata]
    apply Bool.eq_false_iff.mpr
    intro hc
    rw [containsSeq_strip_mono _ _ hc] at hmoj2
    simp at hmoj2
  refine ⟨?_, heny, hmojy⟩
  apply String.ext
  rw [hdata (normalize_price (.str s))]
  rw [replaceAll_of_not_contains ['–'] ['-'] _ heny]
  rw [replaceAll_of_not_contains ['â', '€', '“'] ['-'] _ hmojy]
  rw [hdata s]
  exact pyStripChars_idem _

/-
Claim C5: behaviour on a JSON parse failure.
-/

/-- Claim C5 (amended): when the extracted text fails to parse, the
run takes the json.JSONDecodeError except-clause and exits with code
1; the diagnostic is "Error parsing menu JSON: " followed by the
decoder's own message — the parser message with line/column/char
position, not an excerpt of the offending text. -/
theorem claim_C5 (e : JsonDecodeError) (skip_images : Bool)
    (assetsRel week_key : String) (e1 e2 : Option String) (nowIso : String)
    (oracle : String → Nat → Except String (List Nat)) :
    mainRun (.ok ()) (.error e) skip_images assetsRel week_key e1 e2 nowIso oracle =
      .error (.jsonDecodeError e) ∧
    mainExitCode
      (mainRun (.ok ()) (.error e) skip_images assetsRel week_key e1 e2 nowIso oracle) = 1 ∧
    mainDiagnostic (.jsonDecodeError e) =
      "Error parsing menu JSON: " ++ jsonDecodeErrorStr e := by
  exact ⟨rfl, rfl, rfl⟩

/-- Claim C5 as frozen is false: for the offending text
"NOT-JSON-AT-ALL" (well under 500 characters, so the claimed excerpt
is the whole text) the printed diagnostic does not contain the
excerpt at all — CPython's JSONDecodeError message only carries the
parser message and the line/column/char position. -/
theorem claim_C5_counterexample :
    mainRun (.ok ()) (.error ⟨"Expecting value", "NOT-JSON-AT-ALL", 0⟩) false
        "assets" "wk" Option.none Option.none "now" (fun _ _ => .ok [1]) =
      .error (.jsonDecodeError ⟨"Expecting value", "NOT-JSON-AT-ALL", 0⟩) ∧
    mainDiagnostic (.jsonDecodeError ⟨"Expecting value", "NOT-JSON-AT-ALL", 0⟩) =
      "Error parsing menu JSON: Expecting value: line 1 column 1 (char 0)" ∧
    pyInStr (first500 "NOT-JSON-AT-ALL")
      (mainDiagnostic (.jsonDecodeError ⟨"Expecting value", "NOT-JSON-AT-ALL", 0⟩)) = false := by
  refine ⟨rfl, by decide, by decide⟩

/-
Claim C6: the retry/backoff loop of generate_food_photo_image.
-/

/-- Inversion of a successful try-block: the service really returned
those bytes and they are non-empty (empty responses raise inside the
try). -/
theorem attemptOnce_ok {resp : Except String (List Nat)} {bytes : List Nat}
    (h : attemptOnce resp = .ok bytes) : resp = .ok bytes ∧ bytes ≠ [] := by
  cases resp with
  | ok b =>
    rw [attemptOnce] at h
    by_cases hb : b.isEmpty = true
    · rw [if_pos hb] at h
      cases h
    · rw [if_neg hb] at h
      cases h
      exact ⟨rfl, by simpa using hb⟩
  | error e => cases h

/-- Invariant of the retry loop: called at attempt `attempt` with the
matching fuel, delay and sleep history, it makes between `attempt` and
IMAGE_GEN_MAX_RETRIES attempts, sleeps exactly 8·2^i seconds after the
i-th failed retryable attempt, retries only retryable failures,
returns the service's bytes on success, and raises exactly on
exhaustion or a non-retryable failure. -/
theorem genAttemptLoop_spec (oracle : Nat → Except String (List Nat)) :
    ∀ (fuel attempt : Nat), fuel + attempt = IMAGE_GEN_MAX_RETRIES + 1 →
      1 ≤ attempt → attempt ≤ IMAGE_GEN_MAX_RETRIES →
      (∀ i, 1 ≤ i → i < attempt →
        ∃ m, attemptOnce (oracle i) = .error m ∧ retryableError m = true) →
      ∀ out, out = genAttemptLoop oracle fuel attempt (8 * 2 ^ (attempt - 1))
          (((List.range (attempt - 1)).map (fun i => 8 * 2 ^ i)).reverse) →
      (attempt ≤ out.attemptsMade ∧ out.attemptsMade ≤ IMAGE_GEN_MAX_RETRIES) ∧
      out.sleeps = (List.range (out.attemptsMade - 1)).map (fun i => 8 * 2 ^ i) ∧
      (∀ i, 1 ≤ i → i < out.attemptsMade →
        ∃ m, attemptOnce (oracle i) = .error m ∧ retryableError m = true) ∧
      (∀ bytes, out.result = .ok bytes → oracle out.attemptsMade = .ok bytes ∧ bytes ≠ []) ∧
      (∀ m, out.result = .error m →
        ∃ e, attemptOnce (oracle out.attemptsMade) = .error e ∧
          m = "Image generation failed: " ++ e ∧
          (out.attemptsMade = IMAGE_GEN_MAX_RETRIES ∨ retryableError e = false)) := by
  intro fuel
  induction fuel with
  | zero =>
    intro attempt hsum h1 hmax _ out _
    exact absurd hsum (by omega)
  | succ f ih =>
    intro attempt hsum h1 hmax hist out hout
    cases hres : attemptOnce (oracle attempt) with
    | ok bytes =>
      simp only [genAttemptLoop, hres] at hout
      subst hout
      obtain ⟨horacle, hbytes⟩ := attemptOnce_ok hres
      refine ⟨⟨le_refl _, hmax⟩, by simp, hist, ?_, ?_⟩
      · intro b hb
        cases hb
        exact ⟨horacle, hbytes⟩
      · intro m hm
        cases hm
    | error err =>
      simp only [genAttemptLoop, hres] at hout
      by_cases hguard : IMAGE_GEN_MAX_RETRIES ≤ attempt ∨ retryableError err = false
      · rw [if_pos hguard] at hout
        subst hout
        refine ⟨⟨le_refl _, hmax⟩, by simp, hist, ?_, ?_⟩
        · intro b hb
          cases hb
        · intro m hm
          cases hm
          refine ⟨err, hres, rfl, ?_⟩
          rcases hguard with hg | hg
          · left
            show attempt = IMAGE_GEN_MAX_RETRIES
            omega
          · exact Or.inr hg
      · rw [if_neg hguard] at hout
        have hlt : attempt < IMAGE_GEN_MAX_RETRIES := by
          rcases Nat.lt_or_ge attempt IMAGE_GEN_MAX_RETRIES with h | h
          · exact h
          · exact absurd (Or.inl h) hguard
        have hretry : retryableError err = true := by
          cases hr : retryableError err with
          | true => rfl
          | false => exact absurd (Or.inr hr) hguard
        have hist' : ∀ i, 1 ≤ i → i < attempt + 1 →
            ∃ m, attemptOnce (oracle i) = .error m ∧ retryableError m = true := by
          intro i hi1 hi2
          by_cases hi : i < attempt
          · exact hist i hi1 hi
          · have : i = attempt := by omega
            subst this
            exact ⟨err, hres, hretry⟩
        have hdelay : 8 * 2 ^ (attempt - 1) * 2 = 8 * 2 ^ (attempt + 1 - 1) := by
          have ha : attempt - 1 + 1 = attempt := by omega
          calc 8 * 2 ^ (attempt - 1) * 2 = 8 * 2 ^ (attempt - 1 + 1) := by ring
            _ = 8 * 2 ^ attempt := by rw [ha]
            _ = 8 * 2 ^ (attempt + 1 - 1) := by simp
        have hsleeps : (8 * 2 ^ (attempt - 1)) ::
            ((List.range (attempt - 1)).map (fun i => 8 * 2 ^ i)).reverse =
            ((List.range (attempt + 1 - 1)).map (fun i => 8 * 2 ^ i)).reverse := by
          have ha : attempt + 1 - 1 = (attempt - 1) + 1 := by omega
          rw [ha, List.range_succ, List.map_append, List.reverse_append]
          simp
        rw [hdelay, hsleeps] at hout
        have := ih (attempt + 1) (by omega) (by omega) (by omega) hist' out hout
        obtain ⟨⟨ha1, ha2⟩, hb, hc, hd, he⟩ := this
        exact ⟨⟨by omega, ha2⟩, hb, hc, hd, he⟩

/-- Claim C6 (confirmed): with a non-empty credential,
generate_food_photo_image makes between 1 and IMAGE_GEN_MAX_RETRIES(=4)
attempts; it sleeps 8, 16, 32, ... seconds (8·2^i) between attempts;
every attempt before the last failed with an identifiably
rate-limiting error ("429", "RESOURCE_EXHAUSTED" or "rate" in the
lowercased text); a success writes exactly the service's non-empty
bytes and raises nothing; and it raises exactly when the last attempt
failed with a non-retryable error or was attempt 4 — which triggers
the caller's fallback path. -/
theorem claim_C6 (image_api_key : String) (oracle : Nat → Except String (List Nat))
    (h : image_api_key ≠ "") :
    (1 ≤ (generate_food_photo_image image_api_key oracle).attemptsMade ∧
      (generate_food_photo_image image_api_key oracle).attemptsMade ≤ IMAGE_GEN_MAX_RETRIES) ∧
    (generate_food_photo_image image_api_key oracle).sleeps =
      (List.range ((generate_food_photo_image image_api_key oracle).attemptsMade - 1)).map
        (fun i => 8 * 2 ^ i) ∧
    (∀ i, 1 ≤ i → i < (generate_food_photo_image image_api_key oracle).attemptsMade →
      ∃ m, attemptOnce (oracle i) = .error m ∧ retryableError m = true) ∧
    (∀ bytes, (generate_food_photo_image image_api_key oracle).result = .ok bytes →
      oracle (generate_food_photo_image image_api_key oracle).attemptsMade = .ok bytes ∧
        bytes ≠ []) ∧
    (∀ m, (generate_food_photo_image image_api_key oracle).result = .error m →
      ∃ e, attemptOnce
          (oracle (generate_food_photo_image image_api_key oracle).attemptsMade) = .error e ∧
        m = "Image generation failed: " ++ e ∧
        ((generate_food_photo_image image_api_key oracle).attemptsMade =
            IMAGE_GEN_MAX_RETRIES ∨ retryableError e = false)) := by
  have hkey : (image_api_key == "") = false := by
    simpa using h
  have hgen : generate_food_photo_image image_api_key oracle =
      genAttemptLoop oracle IMAGE_GEN_MAX_RETRIES 1 8 [] := by
    rw [generate_food_photo_image, hkey]
    simp
  have := genAttemptLoop_spec oracle IMAGE_GEN_MAX_RETRIES 1 (by decide) (le_refl 1)
    (by decide) (by omega)
    (generate_food_photo_image image_api_key oracle) (by rw [hgen]; rfl)
  exact this

/-- Witness for claim C6: with the key "k" and a service that
rate-limits the first attempt and then succeeds, the recorded sleeps
obey the 8·2^i backoff schedule. -/
theorem claim_C6_witness :
    (generate_food_photo_image "k"
        (fun n => if n = 1 then .error "HTTP 429 Too Many Requests" else .ok [7])).sleeps =
      (List.range ((generate_food_photo_image "k"
        (fun n => if n = 1 then .error "HTTP 429 Too Many Requests" else .ok [7])).attemptsMade
          - 1)).map (fun i => 8 * 2 ^ i) :=
  (claim_C6 "k" (fun n => if n = 1 then .error "HTTP 429 Too Many Requests" else .ok [7])
    (by decide)).2.1

/-
Claims C10 and C7: properties of the highlight-generation loops and
of the main body.
-/

/-- With an empty credential the per-item generation raises before any
attempt and the caller's fallback renderer produces the write. -/
theorem generateWithFallback_empty_key (oracle : String → Nat → Except String (List Nat))
    (path : String) : generateWithFallback "" oracle path = ⟨path, true⟩ := rfl

/-- Combined facts about the daily loop: it only touches the processed
day keys of the menu; every generated entry carries a category and an
imageUrl string; and with an empty credential every write uses the
fallback renderer. -/
theorem dailyLoop_props (days : List String) (a w key : String)
    (oracle : String → Nat → Except String (List Nat)) :
    ∀ menu : PyDict,
    (∀ k, k ∉ days → pyGet (dailyLoop days menu a w key oracle).1 k = pyGet menu k ∧
      hasKey (dailyLoop days menu a w key oracle).1 k = hasKey menu k) ∧
    (∀ p ∈ (dailyLoop days menu a w key oracle).2.1,
      ∃ cat url, p.2 = PyVal.dict [("category", .str cat), ("imageUrl", .str url)]) ∧
    (key = "" → ∀ ev ∈ (dailyLoop days menu a w key oracle).2.2, ev.viaFallback = true) := by
  induction days with
  | nil =>
    intro menu
    refine ⟨fun k _ => ⟨rfl, rfl⟩, ?_, ?_⟩
    · intro p hp
      simp [dailyLoop] at hp
    · intro _ ev hev
      simp [dailyLoop] at hev
  | cons day rest ih =>
    intro menu
    have hskip : ∀ menu' : PyDict,
        (∀ k, k ∉ (day :: rest) →
          pyGet (dailyLoop rest menu' a w key oracle).1 k = pyGet menu' k ∧
          hasKey (dailyLoop rest menu' a w key oracle).1 k = hasKey menu' k) ∧
        (∀ p ∈ (dailyLoop rest menu' a w key oracle).2.1,
          ∃ cat url, p.2 = PyVal.dict [("category", .str cat), ("imageUrl", .str url)]) ∧
        (key = "" → ∀ ev ∈ (dailyLoop rest menu' a w key oracle).2.2,
          ev.viaFallback = true) := by
      intro menu'
      obtain ⟨h1, h2, h3⟩ := ih menu'
      exact ⟨fun k hk => h1 k (fun hm => hk (List.mem_cons_of_mem day hm)), h2, h3⟩
    cases hv : pyGet menu day with
    | dict day_menu =>
      by_cases he : day_menu.isEmpty = true
      · simpa only [dailyLoop, hv, he, if_true] using hskip menu
      · have he' : day_menu.isEmpty = false := by simpa using he
        cases hr1 : (select_daily_highlight day_menu).1 with
        | none => simpa only [dailyLoop, hv, he', Bool.false_eq_true, if_false, hr1]
            using hskip menu
        | some category =>
          cases hr2 : (select_daily_highlight day_menu).2 with
          | none => simpa only [dailyLoop, hv, he', Bool.false_eq_true, if_false, hr1, hr2]
              using hskip menu
          | some item =>
            cases item with
            | dict itemfs =>
              by_cases hcat : (category == "") = true
              · simpa only [dailyLoop, hv, he', Bool.false_eq_true, if_false, hr1, hr2,
                  hcat, if_true] using hskip menu
              · have hcat' : (category == "") = false := by simpa using hcat
                have hrec := hskip (dictSet menu day
                  (.dict (dictSet day_menu category
                    (.dict (dictSet itemfs "imageUrl"
                      (.str (a ++ "/" ++ ("daily-" ++ w ++ "-" ++ slugify day ++ "-" ++
                        slugify category ++ ".png"))))))))
                obtain ⟨hm1, hm2, hm3⟩ := hrec
                refine ⟨?_, ?_, ?_⟩
                · intro k hk
                  have hkday : k ≠ day := fun hkd => hk (hkd ▸ List.mem_cons_self day rest)
                  have := hm1 k hk
                  simp only [dailyLoop, hv, he', Bool.false_eq_true, if_false, hr1, hr2,
                    hcat', if_false]
                  rw [this.1, this.2,
                    dictSet_pyGet_ne _ _ _ _ hkday, dictSet_hasKey_ne _ _ _ _ hkday]
                  exact ⟨rfl, rfl⟩
                · intro p hp
                  simp only [dailyLoop, hv, he', Bool.false_eq_true, if_false, hr1, hr2,
                    hcat', if_false] at hp
                  rw [List.mem_cons] at hp
                  rcases hp with rfl | hp
                  · exact ⟨category, _, rfl⟩
                  · exact hm2 p hp
                · intro hkey ev hev
                  simp only [dailyLoop, hv, he', Bool.false_eq_true, if_false, hr1, hr2,
                    hcat', if_false] at hev
                  rw [List.mem_cons] at hev
                  rcases hev with rfl | hev
                  · subst hkey
                    rfl
                  · exact hm3 hkey ev hev
            | str s => simpa only [dailyLoop, hv, he', Bool.false_eq_true, if_false, hr1, hr2]
                using hskip menu
            | int n => simpa only [dailyLoop, hv, he', Bool.false_eq_true, if_false, hr1, hr2]
                using hskip menu
            | bool b => simpa only [dailyLoop, hv, he', Bool.false_eq_true, if_false, hr1, hr2]
                using hskip menu
            | none => simpa only [dailyLoop, hv, he', Bool.false_eq_true, if_false, hr1, hr2]
                using hskip menu
            | list xs => simpa only [dailyLoop, hv, he', Bool.false_eq_true, if_false, hr1, hr2]
                using hskip menu
    | str s => simpa only [dailyLoop, hv] using hskip menu
    | int n => simpa only [dailyLoop, hv] using hskip menu
    | bool b => simpa only [dailyLoop, hv] using hskip menu
    | none => simpa only [dailyLoop, hv] using hskip menu
    | list xs => simpa only [dailyLoop, hv] using hskip menu

/-- With an empty credential every weekly write uses the fallback
renderer. -/
theorem weeklyLoop_writes_fallback (cats : List String) (menu : PyDict) (a w : String)
    (oracle : String → Nat → Except String (List Nat)) :
    ∀ ev ∈ (weeklyLoop cats menu a w "" oracle).2, ev.viaFallback = true := by
  induction cats with
  | nil => intro ev hev; simp [weeklyLoop] at hev
  | cons cat rest ih =>
    intro ev hev
    cases hrep : weeklyRepLoop REQUIRED_DAYS menu cat with
    | none =>
      simp only [weeklyLoop, hrep] at hev
      exact ih ev hev
    | some item =>
      by_cases ht : truthy item = true
      · simp only [weeklyLoop, hrep, ht, if_true] at hev
        rw [List.mem_cons] at hev
        rcases hev with rfl | hev
        · rfl
        · exact ih ev hev
      · have ht' : truthy item = false := by simpa using ht
        simp only [weeklyLoop, hrep, ht', Bool.false_eq_true, if_false] at hev
        exact ih ev hev

/-- Inversion of a successful image-generating run (no --skip-images):
the validated menu exists and the result's fields are the generated
ones. -/
theorem mainFromDoc_ok_inv (doc : PyDict) (assetsRel week_key : String)
    (e1 e2 : Option String) (nowIso : String)
    (oracle : String → Nat → Except String (List Nat)) (r : RunResult)
    (h : mainFromDoc doc false assetsRel week_key e1 e2 nowIso oracle = .ok r) :
    ∃ menu final, validate_menu_json doc = .ok menu ∧
      (let d := generate_daily_highlights menu assetsRel week_key
        (get_image_generation_api_key e1 e2) oracle
       let wk := generate_weekly_highlights d.1 assetsRel week_key
        (get_image_generation_api_key e1 e2) oracle
       mainFinalize d.1 (.dict d.2.1) (.dict wk.1) nowIso = .ok final ∧
       r = ⟨final, .dict d.2.1, .dict wk.1, d.2.2 ++ wk.2,
         if get_image_generation_api_key e1 e2 == "" then [missingImageKeyWarning]
         else []⟩) := by
  rw [mainFromDoc] at h
  cases hval : validate_menu_json doc with
  | error e =>
    rw [hval] at h
    exact absurd h (by simp)
  | ok menu =>
    rw [hval] at h
    simp only [Bool.false_eq_true, if_false] at h
    cases hfin : mainFinalize
        (generate_daily_highlights menu assetsRel week_key
          (get_image_generation_api_key e1 e2) oracle).1
        (.dict (generate_daily_highlights menu assetsRel week_key
          (get_image_generation_api_key e1 e2) oracle).2.1)
        (.dict (generate_weekly_highlights
          (generate_daily_highlights menu assetsRel week_key
            (get_image_generation_api_key e1 e2) oracle).1
          assetsRel week_key (get_image_generation_api_key e1 e2) oracle).1)
        nowIso with
    | error e =>
      rw [hfin] at h
      exact absurd h (by simp)
    | ok final =>
      rw [hfin] at h
      refine ⟨menu, final, rfl, hfin, ?_⟩
      cases h
      rfl

/-- Claim C10 (confirmed): with both credential variables unset but
the rest of the run succeeding, the run is not aborted — the missing
key only produces the startup warning; every per-item external
generation call raises immediately (zero attempts, before any service
call); every written image comes from the local fallback renderer;
every daily highlight entry records a category and an imageUrl; and
the process exit code is 0. -/
theorem claim_C10 (doc : PyDict) (assetsRel week_key nowIso : String)
    (oracle : String → Nat → Except String (List Nat)) (r : RunResult)
    (hrun : mainFromDoc doc false assetsRel week_key Option.none Option.none nowIso
      oracle = .ok r) :
    get_image_generation_api_key Option.none Option.none = "" ∧
    r.warnings = [missingImageKeyWarning] ∧
    (∀ orc, (generate_food_photo_image "" orc).result =
        .error "GEMINI_IMAGE_API_KEY (or GEMINI_API_KEY) environment variable not set" ∧
      (generate_food_photo_image "" orc).attemptsMade = 0) ∧
    (∀ ev ∈ r.writes, ev.viaFallback = true) ∧
    (∃ gen, r.daily = .dict gen ∧ ∀ p ∈ gen,
      ∃ cat url, p.2 = PyVal.dict [("category", .str cat), ("imageUrl", .str url)]) ∧
    mainExitCode (mainNoFetch (.ok doc) false assetsRel week_key Option.none Option.none
      nowIso oracle) = 0 := by
  obtain ⟨menu, final, hval, hfin, hr⟩ :=
    mainFromDoc_ok_inv doc assetsRel week_key Option.none Option.none nowIso oracle r hrun
  refine ⟨rfl, ?_, fun orc => ⟨rfl, rfl⟩, ?_, ?_, ?_⟩
  · rw [hr]
    rfl
  · intro ev hev
    rw [hr] at hev
    rw [show (RunResult.writes ⟨final,
        .dict (generate_daily_highlights menu assetsRel week_key
          (get_image_generation_api_key Option.none Option.none) oracle).2.1,
        .dict (generate_weekly_highlights
          (generate_daily_highlights menu assetsRel week_key
            (get_image_generation_api_key Option.none Option.none) oracle).1
          assetsRel week_key (get_image_generation_api_key Option.none Option.none) oracle).1,
        (generate_daily_highlights menu assetsRel week_key
          (get_image_generation_api_key Option.none Option.none) oracle).2.2 ++
        (generate_weekly_highlights
          (generate_daily_highlights menu assetsRel week_key
            (get_image_generation_api_key Option.none Option.none) oracle).1
          assetsRel week_key (get_image_generation_api_key Option.none Option.none) oracle).2,
        if get_image_generation_api_key Option.none Option.none == "" then
          [missingImageKeyWarning] else []⟩) = _ from rfl] at hev
    rw [List.mem_append] at hev
    rcases hev with hev | hev
    · exact (dailyLoop_props REQUIRED_DAYS assetsRel week_key "" oracle menu).2.2 rfl ev hev
    · exact weeklyLoop_writes_fallback CATEGORY_PRIORITY _ assetsRel week_key oracle ev hev
  · refine ⟨(generate_daily_highlights menu assetsRel week_key
        (get_image_generation_api_key Option.none Option.none) oracle).2.1, ?_, ?_⟩
    · rw [hr]
    · exact (dailyLoop_props REQUIRED_DAYS assetsRel week_key "" oracle menu).2.1
  · simp only [mainNoFetch, hrun]
    rfl

/-- Witness for claim C10 at a concrete document: the run with no
credentials succeeds end to end (exit code 0) and both highlight
images come from the fallback renderer. -/
theorem claim_C10_witness :
    get_image_generation_api_key Option.none Option.none = "" ∧
    RunResult.warnings
      ⟨[("Monday", .dict [("Carving", .dict [("name", .str "Roast"), ("description", .str ""),
          ("price", .str "$9")])]),
        ("_generated", .dict [("updatedAt", .str "T"),
          ("priorityOrder", .list [.str "Carving", .str "Plant Power", .str "Action"]),
          ("dailyHighlights",
            .dict [("Monday", .dict [("category", .str "Carving"),
              ("imageUrl", .str "assets/daily-wk-monday-carving.png")])]),
          ("weeklyHighlights",
            .dict [("Carving", .str "assets/weekly-wk-carving.png")])])],
       .dict [("Monday", .dict [("category", .str "Carving"),
         ("imageUrl", .str "assets/daily-wk-monday-carving.png")])],
       .dict [("Carving", .str "assets/weekly-wk-carving.png")],
       [⟨"assets/daily-wk-monday-carving.png", true⟩,
        ⟨"assets/weekly-wk-carving.png", true⟩],
       [missingImageKeyWarning]⟩ = [missingImageKeyWarning] ∧
    mainExitCode (mainNoFetch
      (.ok [("Monday", .dict [("Carving", .str "Roast Beef, $9")])])
      false "assets" "wk" Option.none Option.none "T" (fun _ _ => .ok [1])) = 0 := by
  refine ⟨rfl, ?_, ?_⟩
  · exact (claim_C10
      [("Monday", .dict [("Carving", .dict [("name", .str "Roast"), ("description", .str ""),
        ("price", .str "$9")])]),
       ("_generated", .dict [("updatedAt", .str "T"),
         ("priorityOrder", .list [.str "Carving", .str "Plant Power", .str "Action"]),
         ("dailyHighlights",
           .dict [("Monday", .dict [("category", .str "Carving"),
             ("imageUrl", .str "assets/daily-wk-monday-carving.png")])]),
         ("weeklyHighlights",
           .dict [("Carving", .str "assets/weekly-wk-carving.png")])])]
      "assets" "wk" "T" (fun _ _ => .ok [1]) _ rfl).2.1
  · exact (claim_C10 [("Monday", .dict [("Carving", .str "Roast Beef, $9")])]
      "assets" "wk" "T" (fun _ _ => .ok [1]) _ rfl).2.2.2.2.2

/-- Validation only rewrites the processed day keys. -/
theorem validateDays_frame :
    ∀ (days : List String) (menu out : PyDict) (k : String), k ∉ days →
      validateDays days menu = .ok out →
      pyGet out k = pyGet menu k ∧ hasKey out k = hasKey menu k := by
  intro days
  induction days with
  | nil =>
    intro menu out k _ h
    cases h
    exact ⟨rfl, rfl⟩
  | cons day rest ih =>
    intro menu out k hk h
    have hkday : k ≠ day := fun hkd => hk (hkd ▸ List.mem_cons_self day rest)
    have hkrest : k ∉ rest := fun hm => hk (List.mem_cons_of_mem day hm)
    by_cases hday : hasKey menu day = true
    · cases hv : pyGet menu day with
      | dict dm =>
        simp only [validateDays, hday, Bool.not_true, Bool.false_eq_true, if_false, hv] at h
        obtain ⟨h1, h2⟩ := ih _ out k hkrest h
        rw [h1, h2, dictSet_pyGet_ne _ _ _ _ hkday, dictSet_hasKey_ne _ _ _ _ hkday]
        exact ⟨rfl, rfl⟩
      | str s =>
        simp only [validateDays, hday, Bool.not_true, Bool.false_eq_true, if_false, hv] at h
        exact absurd h (by simp)
      | int n =>
        simp only [validateDays, hday, Bool.not_true, Bool.false_eq_true, if_false, hv] at h
        exact absurd h (by simp)
      | bool b =>
        simp only [validateDays, hday, Bool.not_true, Bool.false_eq_true, if_false, hv] at h
        exact absurd h (by simp)
      | none =>
        simp only [validateDays, hday, Bool.not_true, Bool.false_eq_true, if_false, hv] at h
        exact absurd h (by simp)
      | list xs =>
        simp only [validateDays, hday, Bool.not_true, Bool.false_eq_true, if_false, hv] at h
        exact absurd h (by simp)
    · have hday' : hasKey menu day = false := by simpa using hday
      simp only [validateDays, hday', Bool.not_false, if_true] at h
      exact ih menu out k hkrest h

/-- setdefault only affects its own key. -/
theorem dictSetdefault_frame (fs : PyDict) (k0 : String) (d : PyVal) (k : String)
    (hne : k ≠ k0) :
    pyGet (dictSetdefault fs k0 d).2 k = pyGet fs k ∧
    hasKey (dictSetdefault fs k0 d).2 k = hasKey fs k := by
  induction fs with
  | nil =>
    constructor
    · simp only [dictSetdefault, pyGet]
      rw [if_neg (by simpa using fun hc => hne (Eq.symm hc))]
    · simp only [dictSetdefault, hasKey]
      rw [Bool.or_false]
      simp only [beq_eq_false_iff_ne, ne_eq]
      exact fun hc => hne (Eq.symm hc)
  | cons hd tl ih =>
    obtain ⟨k', v⟩ := hd
    by_cases h : (k' == k0) = true
    · simp [dictSetdefault, h]
    · simp only [dictSetdefault, h, Bool.false_eq_true, if_false]
      constructor
      · simp only [pyGet]
        by_cases hk' : (k' == k) = true
        · rw [if_pos hk', if_pos hk']
        · rw [if_neg hk', if_neg hk']
          exact ih.1
      · simp only [hasKey]
        rw [ih.2]

/-- The metadata finalizer only rewrites the `_generated` key. -/
theorem mainFinalize_frame (menu : PyDict) (daily weekly : PyVal) (nowIso : String)
    (final : PyDict) (k : String) (hne : k ≠ "_generated")
    (h : mainFinalize menu daily weekly nowIso = .ok final) :
    pyGet final k = pyGet menu k ∧ hasKey final k = hasKey menu k := by
  rw [mainFinalize] at h
  cases hsd : (dictSetdefault menu "_generated" (.dict [])).1 with
  | dict g =>
    rw [hsd] at h
    simp only [] at h
    cases h
    obtain ⟨hf1, hf2⟩ := dictSetdefault_frame menu "_generated" (.dict []) k hne
    rw [dictSet_pyGet_ne _ _ _ _ hne, dictSet_hasKey_ne _ _ _ _ hne, hf1, hf2]
    exact ⟨rfl, rfl⟩
  | str s => rw [hsd] at h; exact absurd h (by simp)
  | int n => rw [hsd] at h; exact absurd h (by simp)
  | bool b => rw [hsd] at h; exact absurd h (by simp)
  | none => rw [hsd] at h; exact absurd h (by simp)
  | list xs => rw [hsd] at h; exact absurd h (by simp)

/-- Claim C7 (confirmed): every top-level key other than the five
weekday keys and `_generated` passes through the whole run untouched —
same presence and same value in the written document, whether or not
images are generated. -/
theorem claim_C7 (doc : PyDict) (skip_images : Bool) (assetsRel week_key : String)
    (e1 e2 : Option String) (nowIso : String)
    (oracle : String → Nat → Except String (List Nat)) (k : String) (r : RunResult)
    (hk1 : k ∉ REQUIRED_DAYS) (hk2 : k ≠ "_generated")
    (hrun : mainFromDoc doc skip_images assetsRel week_key e1 e2 nowIso oracle = .ok r) :
    pyGet r.doc k = pyGet doc k ∧ hasKey r.doc k = hasKey doc k := by
  rw [mainFromDoc] at hrun
  cases hval : validate_menu_json doc with
  | error e =>
    simp only [hval] at hrun
    exact absurd hrun (by simp)
  | ok menu =>
    simp only [hval] at hrun
    obtain ⟨hv1, hv2⟩ := validateDays_frame REQUIRED_DAYS doc menu k hk1 hval
    cases skip_images with
    | true =>
      simp only [if_true] at hrun
      cases hda : pyGetAttr (pyGetD menu "_generated" (.dict [])) "dailyHighlights"
          (.dict []) with
      | error e =>
        simp only [hda] at hrun
        exact absurd hrun (by simp)
      | ok daily =>
        simp only [hda] at hrun
        cases hwa : pyGetAttr (pyGetD menu "_generated" (.dict [])) "weeklyHighlights"
            (.dict []) with
        | error e =>
        simp only [hwa] at hrun
        exact absurd hrun (by simp)
        | ok weekly =>
          simp only [hwa] at hrun
          cases hfin : mainFinalize menu daily weekly nowIso with
          | error e =>
        simp only [hfin] at hrun
        exact absurd hrun (by simp)
          | ok final =>
            simp only [hfin] at hrun
            cases hrun
            obtain ⟨hm1, hm2⟩ := mainFinalize_frame menu daily weekly nowIso final k hk2 hfin
            exact ⟨hm1.trans hv1, hm2.trans hv2⟩
    | false =>
      simp only [Bool.false_eq_true, if_false] at hrun
      obtain ⟨hd1, _, _⟩ := dailyLoop_props REQUIRED_DAYS assetsRel week_key
        (get_image_generation_api_key e1 e2) oracle menu
      obtain ⟨hdk1, hdk2⟩ := hd1 k hk1
      cases hfin : mainFinalize
          (generate_daily_highlights menu assetsRel week_key
            (get_image_generation_api_key e1 e2) oracle).1
          (.dict (generate_daily_highlights menu assetsRel week_key
            (get_image_generation_api_key e1 e2) oracle).2.1)
          (.dict (generate_weekly_highlights
            (generate_daily_highlights menu assetsRel week_key
              (get_image_generation_api_key e1 e2) oracle).1
            assetsRel week_key (get_image_generation_api_key e1 e2) oracle).1)
          nowIso with
      | error e =>
        simp only [hfin] at hrun
        exact absurd hrun (by simp)
      | ok final =>
        simp only [hfin] at hrun
        cases hrun
        obtain ⟨hm1, hm2⟩ := mainFinalize_frame _ _ _ nowIso final k hk2 hfin
        exact ⟨(hm1.trans hdk1).trans hv1, (hm2.trans hdk2).trans hv2⟩

/-- Witness for claim C7 at a concrete document carrying the unknown
top-level key "note": the run preserves it. -/
theorem claim_C7_witness :
    pyGet (RunResult.doc
      ⟨[("note", PyVal.str "kept"),
        ("_generated", .dict [("updatedAt", .str "now"),
          ("priorityOrder", .list [.str "Carving", .str "Plant Power", .str "Action"]),
          ("dailyHighlights", .dict []), ("weeklyHighlights", .dict [])])],
       .dict [], .dict [], [], []⟩) "note" =
      pyGet [("note", PyVal.str "kept")] "note" ∧
    hasKey (RunResult.doc
      ⟨[("note", PyVal.str "kept"),
        ("_generated", .dict [("updatedAt", .str "now"),
          ("priorityOrder", .list [.str "Carving", .str "Plant Power", .str "Action"]),
          ("dailyHighlights", .dict []), ("weeklyHighlights", .dict [])])],
       .dict [], .dict [], [], []⟩) "note" =
      hasKey [("note", PyVal.str "kept")] "note" :=
  claim_C7 [("note", PyVal.str "kept")] true "assets" "wk" (some "key") Option.none "now"
    (fun _ _ => .ok [1]) "note"
    ⟨[("note", PyVal.str "kept"),
      ("_generated", .dict [("updatedAt", .str "now"),
        ("priorityOrder", .list [.str "Carving", .str "Plant Power", .str "Action"]),
        ("dailyHighlights", .dict []), ("weeklyHighlights", .dict [])])],
     .dict [], .dict [], [], []⟩
    (by decide) (by decide) rfl

/-
Claim C4: the --no-fetch --skip-images round trip.
-/

/-- Coercion is the identity on an already-normalized three-field
item. -/
theorem coerce_normalized_parts (n d p : String) (hn : (n != "") = true)
    (hsn : pyStrip n = n) (hsd : pyStrip d = d) (hp : (p != "") = true)
    (hnp : normalize_price (.str p) = p) :
    coerce_menu_item (.dict [("name", .str n), ("description", .str d), ("price", .str p)]) =
      some (.dict [("name", .str n), ("description", .str d), ("price", .str p)]) := by
  by_cases hd : d = ""
  · subst hd
    simp [coerce_menu_item, pyGet, pyOr, truthy, hn, hp, hsn, hnp, pyStr, hsd]
  · have htd : (d != "") = true := by simpa using hd
    simp [coerce_menu_item, pyGet, pyOr, truthy, hn, hp, htd, hsn, hsd, hnp, pyStr]

/-- Coercion is the identity on items isNormalizedMenuItemStrict
accepts. -/
theorem coerce_normalized_id (v : PyVal) (h : isNormalizedMenuItemStrict v = true) :
    coerce_menu_item v = some v := by
  unfold isNormalizedMenuItemStrict at h
  split at h
  · rename_i n d p
    simp only [Bool.and_eq_true, beq_iff_eq] at h
    exact coerce_normalized_parts n d p (by simp [h.1.1.1.1]) (by simp [h.1.1.1.2])
      (by simp [h.1.1.2]) (by simp [h.1.2]) (by simp [h.2])
  · exact absurd h (by simp)

/-- Day-menu normalization is the identity on normalized day menus. -/
theorem normalizeDayMenu_id (dm : PyDict)
    (h : ∀ ci ∈ dm, isNormalizedMenuItemStrict ci.2 = true) :
    normalizeDayMenu dm = dm := by
  induction dm with
  | nil => rfl
  | cons hd tl ih =>
    obtain ⟨c, i⟩ := hd
    have hi := h (c, i) (List.mem_cons_self _ _)
    rw [normalizeDayMenu, coerce_normalized_id i hi]
    rw [ih (fun ci hci => h ci (List.mem_cons_of_mem _ hci))]

/-- Validation is the identity on documents whose present required
days are already normalized. -/
theorem validateDays_id :
    ∀ (days : List String) (menu : PyDict),
      (∀ day ∈ days, hasKey menu day = true →
        isNormalizedDayMenu (pyGet menu day) = true) →
      validateDays days menu = .ok menu := by
  intro days
  induction days with
  | nil => intro menu _; rfl
  | cons day rest ih =>
    intro menu h
    by_cases hk : hasKey menu day = true
    · have hv := h day (List.mem_cons_self day rest) hk
      cases hpg : pyGet menu day with
      | dict dm =>
        rw [hpg, isNormalizedDayMenu] at hv
        have hall : ∀ ci ∈ dm, isNormalizedMenuItemStrict ci.2 = true := by
          intro ci hci
          exact List.all_eq_true.mp hv ci hci
        have hset : dictSet menu day (.dict (normalizeDayMenu dm)) = menu := by
          rw [normalizeDayMenu_id dm hall, ← hpg]
          exact dictSet_self_eq menu day hk
        simp only [validateDays, hk, Bool.not_true, Bool.false_eq_true, if_false, hpg, hset]
        exact ih menu (fun d hd => h d (List.mem_cons_of_mem day hd))
      | str s => rw [hpg] at hv; exact absurd hv (by simp [isNormalizedDayMenu])
      | int n => rw [hpg] at hv; exact absurd hv (by simp [isNormalizedDayMenu])
      | bool b => rw [hpg] at hv; exact absurd hv (by simp [isNormalizedDayMenu])
      | none => rw [hpg] at hv; exact absurd hv (by simp [isNormalizedDayMenu])
      | list xs => rw [hpg] at hv; exact absurd hv (by simp [isNormalizedDayMenu])
    · have hk' : hasKey menu day = false := by simpa using hk
      simp only [validateDays, hk', Bool.not_false, if_true]
      exact ih menu (fun d hd => h d (List.mem_cons_of_mem day hd))

/-- get with default reads the stored value when the key exists. -/
theorem pyGetD_eq_pyGet (fs : PyDict) (k : String) (d : PyVal)
    (h : hasKey fs k = true) : pyGetD fs k d = pyGet fs k := by
  induction fs with
  | nil => simp [hasKey] at h
  | cons hd tl ih =>
    obtain ⟨k', v⟩ := hd
    by_cases hk : (k' == k) = true
    · simp [pyGetD, pyGet, hk]
    · have hk2 : (k' == k) = false := by simpa using hk
      simp only [hasKey, hk2, Bool.false_or] at h
      simp [pyGetD, pyGet, hk2, ih h]

/-- The stored priorityOrder value, when accepted, is exactly the
value the program writes. -/
theorem isPriorityOrderVal_eq (v : PyVal) (h : isPriorityOrderVal v = true) :
    v = .list (CATEGORY_PRIORITY.map PyVal.str) := by
  unfold isPriorityOrderVal at h
  split at h
  · rename_i a b c
    simp only [Bool.and_eq_true, beq_iff_eq] at h
    rw [h.1.1, h.1.2, h.2]
    rfl
  · exact absurd h (by simp)

/-- On a well-formed document the finalizer only replaces updatedAt. -/
theorem mainFinalize_wf (doc g : PyDict) (nowIso : String)
    (hg : pyGet doc "_generated" = .dict g) (hk : hasKey doc "_generated" = true)
    (hu : hasKey g "updatedAt" = true) (hpo : hasKey g "priorityOrder" = true)
    (hdh : hasKey g "dailyHighlights" = true) (hwh : hasKey g "weeklyHighlights" = true)
    (hpv : isPriorityOrderVal (pyGet g "priorityOrder") = true) :
    mainFinalize doc (pyGet g "dailyHighlights") (pyGet g "weeklyHighlights") nowIso =
      .ok (setUpdatedAt doc nowIso) := by
  rw [mainFinalize, dictSetdefault_of_hasKey doc "_generated" (.dict []) hk]
  simp only [hg]
  have hne1 : "priorityOrder" ≠ "updatedAt" := by decide
  have hne2 : "dailyHighlights" ≠ "updatedAt" := by decide
  have hne3 : "dailyHighlights" ≠ "priorityOrder" := by decide
  have hne4 : "weeklyHighlights" ≠ "updatedAt" := by decide
  have hne5 : "weeklyHighlights" ≠ "priorityOrder" := by decide
  have hne6 : "weeklyHighlights" ≠ "dailyHighlights" := by decide
  have hg2 : dictSet (dictSet g "updatedAt" (.str nowIso)) "priorityOrder"
      (.list (CATEGORY_PRIORITY.map PyVal.str)) = dictSet g "updatedAt" (.str nowIso) := by
    rw [← isPriorityOrderVal_eq (pyGet g "priorityOrder") hpv]
    rw [← dictSet_pyGet_ne g "updatedAt" "priorityOrder" (.str nowIso) hne1]
    exact dictSet_self_eq _ _ (by rw [dictSet_hasKey_ne g "updatedAt" _ _ hne1]; exact hpo)
  rw [hg2]
  have hg3 : dictSet (dictSet g "updatedAt" (.str nowIso)) "dailyHighlights"
      (pyGet g "dailyHighlights") = dictSet g "updatedAt" (.str nowIso) := by
    rw [← dictSet_pyGet_ne g "updatedAt" "dailyHighlights" (.str nowIso) hne2]
    exact dictSet_self_eq _ _ (by rw [dictSet_hasKey_ne g "updatedAt" _ _ hne2]; exact hdh)
  rw [hg3]
  have hg4 : dictSet (dictSet g "updatedAt" (.str nowIso)) "weeklyHighlights"
      (pyGet g "weeklyHighlights") = dictSet g "updatedAt" (.str nowIso) := by
    rw [← dictSet_pyGet_ne g "updatedAt" "weeklyHighlights" (.str nowIso) hne4]
    exact dictSet_self_eq _ _ (by rw [dictSet_hasKey_ne g "updatedAt" _ _ hne4]; exact hwh)
  rw [hg4]
  rw [setUpdatedAt, hg]

/-- Claim C4 (amended): a --no-fetch --skip-images run on a
well-formed existing document (present weekdays already normalized —
items carrying exactly the three fields name/description/price — and
`_generated` already holding the four metadata keys with the current
priority order) produces the input document with only
`_generated.updatedAt` replaced; the serialized output is therefore
byte-identical to the serialized input except for that field, and
dailyHighlights and weeklyHighlights are the input's own values,
unchanged.  The amendment (see the counterexample): re-validation
rewrites every item to exactly name/description/price, so a document
whose items carry an imageUrl — well-formed by the data model, as a
previous full run writes them — is *not* reproduced byte-identically:
the item-level imageUrl fields are stripped. -/
theorem claim_C4 (doc : PyDict) (assetsRel week_key : String) (e1 e2 : Option String)
    (nowIso : String) (oracle : String → Nat → Except String (List Nat)) (g : PyDict)
    (hwf : wellFormedMenuDoc doc = true) (hg : pyGet doc "_generated" = .dict g) :
    mainFromDoc doc true assetsRel week_key e1 e2 nowIso oracle =
      .ok ⟨setUpdatedAt doc nowIso, pyGet g "dailyHighlights", pyGet g "weeklyHighlights",
        [], if get_image_generation_api_key e1 e2 == "" then [missingImageKeyWarning]
        else []⟩ ∧
    (∀ r, mainFromDoc doc true assetsRel week_key e1 e2 nowIso oracle = .ok r →
      write_menu_content r.doc = write_menu_content (setUpdatedAt doc nowIso) ∧
      r.daily = pyGet g "dailyHighlights" ∧ r.weekly = pyGet g "weeklyHighlights") := by
  simp only [wellFormedMenuDoc, Bool.and_eq_true] at hwf
  obtain ⟨⟨⟨hdays, hkgen⟩, hmeta⟩⟩ := And.intro hwf trivial
  rw [hg] at hmeta
  simp only [Bool.and_eq_true] at hmeta
  obtain ⟨⟨⟨⟨hu, hpo⟩, hdh⟩, hwh⟩, hpv⟩ := hmeta
  have hvalid : validate_menu_json doc = .ok doc := by
    apply validateDays_id
    intro day hday hk
    have := List.all_eq_true.mp hdays day hday
    rcases Bool.or_eq_true_iff.mp this with hnot | hnorm
    · rw [hk] at hnot
      exact absurd hnot (by simp)
    · exact hnorm
  have hread : pyGetD doc "_generated" (.dict []) = .dict g := by
    rw [pyGetD_eq_pyGet doc "_generated" (.dict []) hkgen, hg]
  have hmain : mainFromDoc doc true assetsRel week_key e1 e2 nowIso oracle =
      .ok ⟨setUpdatedAt doc nowIso, pyGet g "dailyHighlights", pyGet g "weeklyHighlights",
        [], if get_image_generation_api_key e1 e2 == "" then [missingImageKeyWarning]
        else []⟩ := by
    rw [mainFromDoc]
    simp only [hvalid, if_true, hread]
    have hda : pyGetAttr (PyVal.dict g) "dailyHighlights" (.dict []) =
        .ok (pyGet g "dailyHighlights") := by
      rw [pyGetAttr, pyGetD_eq_pyGet g "dailyHighlights" (.dict []) hdh]
    have hwa : pyGetAttr (PyVal.dict g) "weeklyHighlights" (.dict []) =
        .ok (pyGet g "weeklyHighlights") := by
      rw [pyGetAttr, pyGetD_eq_pyGet g "weeklyHighlights" (.dict []) hwh]
    simp only [hda, hwa]
    rw [mainFinalize_wf doc g nowIso hg hkgen hu hpo hdh hwh hpv]
  refine ⟨hmain, ?_⟩
  intro r hr
  rw [hmain] at hr
  cases hr
  exact ⟨rfl, rfl, rfl⟩

/-- Witness for claim C4 at a concrete well-formed document: the run
returns the document with only updatedAt replaced. -/
theorem claim_C4_witness :
    mainFromDoc
      [("Monday", .dict [("Soup", .dict [("name", .str "Tomato"), ("description", .str ""),
          ("price", .str "$3")])]),
       ("_generated", .dict [("updatedAt", .str "2025-10-11T00:00:00+00:00"),
         ("priorityOrder", .list [.str "Carving", .str "Plant Power", .str "Action"]),
         ("dailyHighlights", .dict []), ("weeklyHighlights", .dict [])])]
      true "assets" "wk" (some "key") Option.none "2025-10-12T00:00:00+00:00"
      (fun _ _ => .ok [1]) =
    .ok ⟨setUpdatedAt
        [("Monday", .dict [("Soup", .dict [("name", .str "Tomato"), ("description", .str ""),
            ("price", .str "$3")])]),
         ("_generated", .dict [("updatedAt", .str "2025-10-11T00:00:00+00:00"),
           ("priorityOrder", .list [.str "Carving", .str "Plant Power", .str "Action"]),
           ("dailyHighlights", .dict []), ("weeklyHighlights", .dict [])])]
        "2025-10-12T00:00:00+00:00",
      pyGet [("updatedAt", PyVal.str "2025-10-11T00:00:00+00:00"),
        ("priorityOrder", .list [.str "Carving", .str "Plant Power", .str "Action"]),
        ("dailyHighlights", .dict []), ("weeklyHighlights", .dict [])] "dailyHighlights",
      pyGet [("updatedAt", PyVal.str "2025-10-11T00:00:00+00:00"),
        ("priorityOrder", .list [.str "Carving", .str "Plant Power", .str "Action"]),
        ("dailyHighlights", .dict []), ("weeklyHighlights", .dict [])] "weeklyHighlights",
      [], if get_image_generation_api_key (some "key") Option.none == "" then
        [missingImageKeyWarning] else []⟩ :=
  (claim_C4
    [("Monday", .dict [("Soup", .dict [("name", .str "Tomato"), ("description", .str ""),
        ("price", .str "$3")])]),
     ("_generated", .dict [("updatedAt", .str "2025-10-11T00:00:00+00:00"),
       ("priorityOrder", .list [.str "Carving", .str "Plant Power", .str "Action"]),
       ("dailyHighlights", .dict []), ("weeklyHighlights", .dict [])])]
    "assets" "wk" (some "key") Option.none "2025-10-12T00:00:00+00:00"
    (fun _ _ => .ok [1])
    [("updatedAt", .str "2025-10-11T00:00:00+00:00"),
     ("priorityOrder", .list [.str "Carving", .str "Plant Power", .str "Action"]),
     ("dailyHighlights", .dict []), ("weeklyHighlights", .dict [])]
    (by decide) rfl).1

/-- Claim C4 as frozen is false: a well-formed existing document whose
Monday Soup item carries the imageUrl a previous full run wrote is not
reproduced byte-identically modulo updatedAt — re-validation strips
the item's imageUrl field, so the output differs from the
updatedAt-only rewrite of the input. -/
theorem claim_C4_counterexample :
    ∃ r, mainFromDoc
      [("Monday", .dict [("Soup", .dict [("name", .str "Tomato"), ("description", .str ""),
          ("price", .str "$3"), ("imageUrl", .str "assets/x.png")])]),
       ("_generated", .dict [("updatedAt", .str "old"),
         ("priorityOrder", .list [.str "Carving", .str "Plant Power", .str "Action"]),
         ("dailyHighlights", .dict []), ("weeklyHighlights", .dict [])])]
      true "assets" "wk" (some "key") Option.none "T" (fun _ _ => .ok [1]) = .ok r ∧
    pyGetPath (.dict r.doc) ["Monday", "Soup", "imageUrl"] = PyVal.none ∧
    pyGetPath (.dict (setUpdatedAt
      [("Monday", .dict [("Soup", .dict [("name", .str "Tomato"), ("description", .str ""),
          ("price", .str "$3"), ("imageUrl", .str "assets/x.png")])]),
       ("_generated", .dict [("updatedAt", .str "old"),
         ("priorityOrder", .list [.str "Carving", .str "Plant Power", .str "Action"]),
         ("dailyHighlights", .dict []), ("weeklyHighlights", .dict [])])] "T"))
      ["Monday", "Soup", "imageUrl"] = .str "assets/x.png" ∧
    r.doc ≠ setUpdatedAt
      [("Monday", .dict [("Soup", .dict [("name", .str "Tomato"), ("description", .str ""),
          ("price", .str "$3"), ("imageUrl", .str "assets/x.png")])]),
       ("_generated", .dict [("updatedAt", .str "old"),
         ("priorityOrder", .list [.str "Carving", .str "Plant Power", .str "Action"]),
         ("dailyHighlights", .dict []), ("weeklyHighlights", .dict [])])] "T" := by
  refine ⟨⟨[("Monday", .dict [("Soup", .dict [("name", .str "Tomato"),
      ("description", .str ""), ("price", .str "$3")])]),
     ("_generated", .dict [("updatedAt", .str "T"),
       ("priorityOrder", .list [.str "Carving", .str "Plant Power", .str "Action"]),
       ("dailyHighlights", .dict []), ("weeklyHighlights", .dict [])])],
     .dict [], .dict [], [], []⟩, rfl, rfl, rfl, ?_⟩
  intro he
  have h2 : PyVal.none = PyVal.str "assets/x.png" :=
    congrArg (fun d => pyGetPath (.dict d) ["Monday", "Soup", "imageUrl"]) he
  exact absurd h2 (by simp)
